import Mathlib

/-!
Shallow embedding of the rotor-http HTTP/1.x wire-protocol engine
(`src/headers.rs`, `src/message.rs`, `src/server/parser.rs`,
`src/server/response.rs`, `src/server/error.rs`, `src/client/parser.rs`,
`src/client/request.rs`, `src/client/head.rs`, `src/shared/version.rs`),
together with theorems settling the specification claims.

Byte strings are `List Nat` (each entry an octet value).  Rust functions
that can `panic!` / fail an `assert!` are embedded as `Option`-returning
functions, `none` marking the panic.  Functions returning
`Result<_, HeaderError>` are embedded with `Except HeaderError`.
-/

namespace RotorHttp

/-- Byte strings, as in Rust `&[u8]`. -/
abbrev Bytes := List Nat

/-- ASCII representation of a Lean string (all source literals are ASCII). -/
def strBytes (s : String) : Bytes := s.data.map Char.toNat

/-- Rust `u8::to_ascii_lowercase`. -/
def toLowerByte (c : Nat) : Nat := if 65 ≤ c ∧ c ≤ 90 then c + 32 else c

/-- The whitespace class used by the value matchers of `src/headers.rs`:
`b'\r' | b'\n' | b' ' | b'\t'`. -/
def isWsByte (c : Nat) : Bool := c = 13 || c = 10 || c = 32 || c = 9

/-- Rust slice `split` on a separator byte: yields the (possibly empty)
fragments between separators; always at least one fragment. -/
def splitByte (sep : Nat) : Bytes → List Bytes
  | [] => [[]]
  | c :: rest =>
    let r := splitByte sep rest
    if c = sep then [] :: r
    else
      match r with
      | g :: gs => (c :: g) :: gs
      | [] => [[c]]

/-- Decimal rendering of a number, as written by Rust `write!("{}", n)`. -/
def decBytes (n : Nat) : Bytes := strBytes (toString n)

/-- Lower-case hex rendering, as written by Rust `write!("{:x}", n)`. -/
def hexBytes (n : Nat) : Bytes := (Nat.toDigits 16 n).map Char.toNat

/-- First index `a ≥ start` at which the two-byte needle `\r\n` occurs
in the buffer, if any (the delimiter search of the stream adapter). -/
def findCRLF (inp : Bytes) (start : Nat) : Option Nat :=
  (List.range inp.length).find? fun a =>
    start ≤ a && inp.getD a 0 = 13 && inp.getD (a+1) 0 = 10 && a + 1 < inp.length

/-! ## `src/headers.rs`: header-name and token-value matchers -/

/-- The common shape of `is_transfer_encoding` / `is_content_length` /
`is_connection`: length equality plus bytewise `to_ascii_lowercase`
comparison with the target name. -/
def headerNameIs (target : Bytes) (val : Bytes) : Bool :=
  val.length = target.length &&
  (List.zip val target).all fun p => p.2 = toLowerByte p.1

def is_transfer_encoding (val : Bytes) : Bool :=
  headerNameIs (strBytes "transfer-encoding") val

def is_content_length (val : Bytes) : Bool :=
  headerNameIs (strBytes "content-length") val

def is_connection (val : Bytes) : Bool :=
  headerNameIs (strBytes "connection") val

/-- The first loop of `is_close` (`src/headers.rs:49-61`): skip whitespace;
on `c`/`C` check the room guard and compare the next four bytes with
`lose` case-insensitively; on any other byte return `false`; if the value
is exhausted without a break, the second loop runs over an empty iterator
and the function returns `true`. -/
def isCloseScan (vlen : Nat) : Bytes → Nat → Bool
  | [], _ => true
  | ch :: rest, idx =>
    if isWsByte ch then isCloseScan vlen rest (idx + 1)
    else if ch = 99 || ch = 67 then
      if vlen < idx + 5 then false
      else (List.zip (rest.take 4) (strBytes "lose")).all
        fun p => toLowerByte p.1 = p.2
    else false

/-- `src/headers.rs:45-68` `is_close`. -/
def is_close (val : Bytes) : Bool :=
  if val.length < 5 then false else isCloseScan val.length val 0

/-- The first loop of `is_chunked` (`src/headers.rs:77-89`), analogous to
`isCloseScan` with token `chunked`. -/
def isChunkedScan (vlen : Nat) : Bytes → Nat → Bool
  | [], _ => true
  | ch :: rest, idx =>
    if isWsByte ch then isChunkedScan vlen rest (idx + 1)
    else if ch = 99 || ch = 67 then
      if vlen < idx + 7 then false
      else (List.zip (rest.take 6) (strBytes "hunked")).all
        fun p => toLowerByte p.1 = p.2
    else false

/-- `src/headers.rs:73-96` `is_chunked`. -/
def is_chunked (val : Bytes) : Bool :=
  if val.length < 7 then false else isChunkedScan val.length val 0

/-- Modelled from the spec: `headers::is_expect` is called from
`src/server/parser.rs:206` but its definition is not among the sources;
§4.1 states that header-name recognition is ASCII case-insensitive for
`expect`. -/
def is_expect (val : Bytes) : Bool :=
  headerNameIs (strBytes "expect") val

/-- Leading- and trailing-whitespace trim over the `src/headers.rs`
whitespace class. -/
def trimWs (v : Bytes) : Bytes :=
  ((v.dropWhile isWsByte).reverse.dropWhile isWsByte).reverse

/-- Modelled from the spec: `headers::is_continue` is called from
`src/server/parser.rs:207` but its definition is not among the sources;
§4.1 states that token-value recognition is ASCII case-insensitive with
whitespace trimming for `100-continue`. -/
def is_continue (val : Bytes) : Bool :=
  (trimWs val).map toLowerByte = strBytes "100-continue"

/-! ## `src/shared/version.rs` -/

/-- HTTP version (`shared/version.rs`). -/
inductive Version
  | http10
  | http11
  | http20
deriving DecidableEq, Repr

/-- The `Display` impl of `Version`. -/
def Version.render : Version → Bytes
  | .http10 => strBytes "HTTP/1.0"
  | .http11 => strBytes "HTTP/1.1"
  | .http20 => strBytes "HTTP/2"

/-! ## `src/message.rs`: the outgoing-message builder -/

/-- `message.rs` `Body`. -/
inductive Body
  | Normal
  | Ignored
  | Denied
deriving DecidableEq, Repr

/-- `message.rs` `MessageState`. -/
inductive MessageState
  | ResponseStart (version : Version) (body : Body) (close : Bool)
  | RequestStart
  | Headers (body : Body) (chunked : Bool) (close : Bool) (request : Bool)
      (content_length : Option Nat)
  | ZeroBodyMessage
  | IgnoredBody
  | FixedSizeBody (remaining : Nat)
  | ChunkedBody
  | Done
deriving DecidableEq, Repr

/-- `message.rs` `HeaderError`. -/
inductive HeaderError
  | DuplicateContentLength
  | DuplicateTransferEncoding
  | TransferEncodingAfterContentLength
  | ContentLengthAfterTransferEncoding
  | CantDetermineBodySize
  | BodyLengthHeader
deriving DecidableEq, Repr

/-- A `Message` value: the output buffer it appends to, and its state. -/
abbrev Msg := Bytes × MessageState

/-- `MessageState::is_started` / `Message::is_started`. -/
def MessageState.is_started : MessageState → Bool
  | .RequestStart => false
  | .ResponseStart _ _ _ => false
  | _ => true

/-- `Message::is_complete`. -/
def MessageState.is_complete : MessageState → Bool
  | .Done => true
  | _ => false

/-- Rust `str::eq_ignore_ascii_case`. -/
def eqIgnoreAsciiCase (a b : Bytes) : Bool :=
  a.length = b.length &&
  (List.zip a b).all fun p => toLowerByte p.1 = toLowerByte p.2

namespace Message

/-- `Message::response_status` (`message.rs:88-117`); `none` is the panic
on a wrong state. -/
def response_status (m : Msg) (code : Nat) (reason : String) : Option Msg :=
  match m.2 with
  | .ResponseStart version body close =>
    let buf := m.1 ++ version.render ++ strBytes " " ++ decBytes code ++
      strBytes " " ++ strBytes reason ++ strBytes "\r\n"
    let body' :=
      if code = 101 ∨ code = 204 then Body.Denied
      else if body = Body.Normal ∧ code = 304 then Body.Ignored
      else body
    some (buf, .Headers body' false close false none)
  | _ => none

/-- `Message::request_line` (`message.rs:127-145`). -/
def request_line (m : Msg) (method path : String) (version : Version) :
    Option Msg :=
  match m.2 with
  | .RequestStart =>
    let buf := m.1 ++ strBytes method ++ strBytes " " ++ strBytes path ++
      strBytes " " ++ version.render ++ strBytes "\r\n"
    some (buf, .Headers .Normal false false true none)
  | _ => none

/-- `Message::write_header` (`message.rs:147-152`). -/
def write_header (m : Msg) (name : String) (value : Bytes) : Msg :=
  (m.1 ++ strBytes name ++ strBytes ": " ++ value ++ strBytes "\r\n", m.2)

/-- `Message::add_header` (`message.rs:173-192`); `none` is the panic on a
wrong state, `Except.error` the returned `HeaderError`. -/
def add_header (m : Msg) (name : String) (value : Bytes) :
    Option (Except HeaderError Msg) :=
  if eqIgnoreAsciiCase (strBytes name) (strBytes "Content-Length")
      ∨ eqIgnoreAsciiCase (strBytes name) (strBytes "Transfer-Encoding") then
    some (.error .BodyLengthHeader)
  else
    match m.2 with
    | .Headers _ _ _ _ _ => some (.ok (write_header m name value))
    | _ => none

/-- `Message::add_length` (`message.rs:203-224`). -/
def add_length (m : Msg) (n : Nat) : Option (Except HeaderError Msg) :=
  match m.2 with
  | .Headers body chunked close request content_length =>
    match content_length, chunked with
    | some _, _ => some (.error .DuplicateContentLength)
    | none, true => some (.error .ContentLengthAfterTransferEncoding)
    | none, false =>
      some (.ok (write_header (m.1, .Headers body chunked close request
        (some n)) "Content-Length" (decBytes n)))
  | _ => none

/-- `Message::add_chunked` (`message.rs:235-256`). -/
def add_chunked (m : Msg) : Option (Except HeaderError Msg) :=
  match m.2 with
  | .Headers body chunked close request content_length =>
    match content_length, chunked with
    | some _, _ => some (.error .TransferEncodingAfterContentLength)
    | none, true => some (.error .DuplicateTransferEncoding)
    | none, false =>
      some (.ok (write_header (m.1, .Headers body true close request none)
        "Transfer-Encoding" (strBytes "chunked")))
  | _ => none

/-- `Message::done_headers` (`message.rs:281-325`): emits `Connection:
close` when the close flag is set, resolves the body framing, and writes
the terminating empty line (also on the `Err` return, matching the
source, which writes `\r\n` after computing the result). -/
def done_headers (m : Msg) : Option (Msg × Except HeaderError Bool) :=
  let m :=
    match m.2 with
    | .Headers _ _ true _ _ => write_header m "Connection" (strBytes "close")
    | _ => m
  match m.2 with
  | .Headers body chunked _close request content_length =>
    let withCrlf (st : MessageState) : Msg := (m.1 ++ strBytes "\r\n", st)
    match body, content_length, chunked with
    | .Ignored, _, _ => some (withCrlf .IgnoredBody, .ok false)
    | .Denied, _, _ => some (withCrlf .ZeroBodyMessage, .ok false)
    | .Normal, some cl, false => some (withCrlf (.FixedSizeBody cl), .ok true)
    | .Normal, none, true => some (withCrlf .ChunkedBody, .ok true)
    | .Normal, some _, true => none
    | .Normal, none, false =>
      if request then some (withCrlf .ZeroBodyMessage, .ok false)
      else some (withCrlf (.Headers body chunked _close request
        content_length), .error .CantDetermineBodySize)
  | _ => none

/-- `Message::write_body` (`message.rs:345-371`); `none` is a panic.  Note
the source has no `IgnoredBody` arm, so that state falls into the
catch-all panic, and `ZeroBodyMessage` panics on non-empty data. -/
def write_body (m : Msg) (data : Bytes) : Option Msg :=
  match m.2 with
  | .ZeroBodyMessage =>
    if data.length ≠ 0 then none else some m
  | .FixedSizeBody x =>
    if data.length > x then none
    else some (m.1 ++ data, .FixedSizeBody (x - data.length))
  | .ChunkedBody =>
    some (m.1 ++ hexBytes data.length ++ strBytes "\r\n" ++ data,
      .ChunkedBody)
  | _ => none

/-- `Message::done` (`message.rs:386-402`). -/
def done (m : Msg) : Option Msg :=
  match m.2 with
  | .ChunkedBody => some (m.1 ++ strBytes "0\r\n", .Done)
  | .FixedSizeBody 0 => some (m.1, .Done)
  | .ZeroBodyMessage => some (m.1, .Done)
  | .IgnoredBody => some (m.1, .Done)
  | .Done => some m
  | _ => none

end Message

/-! ## `src/server/response.rs`: the server `Response` wrapper -/

/-- `server/response.rs` `NOT_IMPLEMENTED`. -/
def NOT_IMPLEMENTED : Bytes :=
  strBytes "HTTP/1.0 501 Not Implemented\r\nContent-Type: text/plain\r\nContent-Length: 21\r\n\r\n501 Not Implemented\r\n"

/-- `server/response.rs` `NOT_IMPLEMENTED_HEAD`. -/
def NOT_IMPLEMENTED_HEAD : Bytes :=
  strBytes "HTTP/1.0 501 Not Implemented\r\nContent-Type: text/plain\r\nContent-Length: 21\r\n\r\n"

namespace Response

/-- `Response::new` (`server/response.rs:35-46`). -/
def new (out : Bytes) (version : Version) (is_head do_close : Bool) : Msg :=
  (out, .ResponseStart version (if is_head then .Ignored else .Normal)
    (do_close || version = Version.http10))

/-- `Response::finish` (`server/response.rs:48-69`): returns the buffer
and whether keep-alive may proceed. -/
def finish (m : Msg) : Bytes × Bool :=
  if m.2.is_complete then (m.1, true)
  else
    match m.2 with
    | .ResponseStart _ .Denied _ => (m.1 ++ NOT_IMPLEMENTED_HEAD, false)
    | .ResponseStart _ .Ignored _ => (m.1 ++ NOT_IMPLEMENTED_HEAD, false)
    | .ResponseStart _ .Normal _ => (m.1 ++ NOT_IMPLEMENTED, false)
    | _ => (m.1, false)

end Response

/-! ## Server error codes and the default error page -/

/-- `server/parser.rs:66-71` `ErrorCode`. -/
inductive ErrorCode
  | BadRequest
  | PayloadTooLarge
  | RequestTimeout
  | RequestHeaderFieldsTooLarge
deriving DecidableEq, Repr

/-- The HTTP status and reason for each `ErrorCode`, as mapped by
`HttpError::http_status` in `server/error.rs:72-89` for the
corresponding error variants. -/
def ErrorCode.http_status : ErrorCode → Nat × String
  | .BadRequest => (400, "Bad Request")
  | .PayloadTooLarge => (413, "Payload Too Large")
  | .RequestTimeout => (408, "Request Timeout")
  | .RequestHeaderFieldsTooLarge => (431, "Request Header Fields Too Large")

/-- The default `emit_error_page` (`server/context.rs:12-24`, identically
`server/protocol.rs:125-140`): status line, HTML body with declared
length, `Content-Type`, end of headers, body, `done`.  `none` is any
panic from an `unwrap` or a builder state assertion. -/
def emit_error_page (code : ErrorCode) (m : Msg) : Option Msg := do
  let (status, reason) := code.http_status
  let m ← Message.response_status m status reason
  let data := strBytes ("<h1>" ++ toString status ++ " " ++ reason ++
    "</h1>\n<p><small>Served for you by rotor-http</small></p>\n")
  let m ← (← Message.add_length m data.length).toOption
  let m ← (← Message.add_header m "Content-Type" (strBytes "text/html")).toOption
  let (m, r) ← Message.done_headers m
  let _ ← r.toOption
  let m ← Message.write_body m data
  Message.done m

/-! ## `src/server/parser.rs`: header scanning -/

/-- A parsed header: raw name and value bytes (the name is a `&str` in the
source; ASCII bytes here). -/
structure HttpHeader where
  name : Bytes
  value : Bytes
deriving DecidableEq, Repr

/-- `server/body.rs` `BodyKind` (requests). -/
inductive BodyKind
  | Fixed (n : Nat)
  | Upgrade
  | Chunked
deriving DecidableEq, Repr

/-- `shared/recvmode.rs` `RecvMode`. -/
inductive RecvMode
  | Buffered (limit : Nat)
  | Progressive (hint : Nat)
deriving DecidableEq, Repr

/-- The composition `from_utf8(value)` then `str::parse::<u64>()` used for
`Content-Length` values (`server/parser.rs:195-196`): succeeds exactly on
an optional `+` sign followed by one or more ASCII digits whose value
fits in `u64`; any other byte string fails one of the two steps. -/
def parse_u64 (v : Bytes) : Option Nat :=
  let digits := match v with
    | 43 :: rest => rest
    | _ => v
  if digits.isEmpty then none
  else if digits.all (fun c => 48 ≤ c && c ≤ 57) then
    let n := digits.foldl (fun a c => a * 10 + (c - 48)) 0
    if n < 2 ^ 64 then some n else none
  else none

/-- The accumulator of the `scan_headers` loop. -/
structure ScanState where
  has_content_length : Bool
  close : Bool
  expect_continue : Bool
  result : BodyKind
deriving DecidableEq, Repr

/-- One iteration of the `scan_headers` loop body
(`server/parser.rs:177-211`); `none` is the `Err(())` early return. -/
def scanHeadersItem (st : ScanState) (h : HttpHeader) : Option ScanState :=
  if is_transfer_encoding h.name then
    let enc := (splitByte 44 h.value).getLastD []
    if is_chunked enc then
      some { st with
        close := st.close || st.has_content_length,
        result := .Chunked }
    else some st
  else if is_content_length h.name then
    if st.has_content_length then none
    else
      let st := { st with has_content_length := true }
      if st.result ≠ BodyKind.Chunked then
        match parse_u64 h.value with
        | some len => some { st with result := .Fixed len }
        | none => none
      else
        some { st with close := true }
  else if is_connection h.name then
    if (splitByte 44 h.value).any is_close then
      some { st with close := true }
    else some st
  else if is_expect h.name then
    if is_continue h.value then
      some { st with expect_continue := true }
    else some st
  else some st

/-- The loop of `scan_headers` over the header list. -/
def scanHeadersLoop : List HttpHeader → ScanState → Option ScanState
  | [], st => some st
  | h :: rest, st => do scanHeadersLoop rest (← scanHeadersItem st h)

/-- `server/parser.rs:153-213` `scan_headers`: resolves the request body
framing, the `Expect: 100-continue` flag and the connection-close flag;
`none` is the `Err(())` fatal parse error. -/
def scan_headers (version : Version) (headers : List HttpHeader) :
    Option (BodyKind × Bool × Bool) := do
  let st ← scanHeadersLoop headers
    { has_content_length := false, close := version = Version.http10,
      expect_continue := false, result := .Fixed 0 }
  some (st.result, st.expect_continue, st.close)

/-! ## `src/server/parser.rs`: the connection state machine (server role) -/

/-- `server/mod.rs:33` `MAX_CHUNK_HEAD`. -/
def MAX_CHUNK_HEAD : Nat := 128

/-- `server/mod.rs:25` `MAX_HEADERS_SIZE`. -/
def MAX_HEADERS_SIZE : Nat := 16384

/-- `server/mod.rs:22` `MAX_HEADERS_NUM`. -/
def MAX_HEADERS_NUM : Nat := 256

/-- `server/parser.rs:40-51` `BodyProgress` (server side). -/
inductive BodyProgress
  | BufferFixed (left : Nat)
  | BufferChunked (limit off left : Nat)
  | ProgressiveFixed (hint : Nat) (left : Nat)
  | ProgressiveChunked (hint : Nat) (off : Nat) (left : Nat)
deriving DecidableEq, Repr

/-- `server/parser.rs:138-151` `start_body`; `none` is the
`unimplemented!()` on `Upgrade`. -/
def start_body (mode : RecvMode) (body : BodyKind) : Option BodyProgress :=
  match mode, body with
  | .Buffered _, .Fixed y => some (.BufferFixed y)
  | .Buffered x, .Chunked => some (.BufferChunked x 0 0)
  | .Progressive x, .Fixed y => some (.ProgressiveFixed x y)
  | .Progressive x, .Chunked => some (.ProgressiveChunked x 0 0)
  | _, .Upgrade => none

/-- `server/parser.rs:316-321` `consumed`. -/
def consumed (off : Nat) : Nat := if off > 0 then off + 2 else 0

/-- `server/parser.rs:30-37` `ReadBody` (time-free; the abstract handler
machine is `Option Unit`, present or consumed). -/
structure ReadBody where
  machine : Option Unit
  response : MessageState
  progress : BodyProgress
  connection_close : Bool
deriving DecidableEq, Repr

/-- `server/parser.rs:215-221` `HeaderResult` (without `Incomplete`,
which only reports a partial header block to the outer loop). -/
inductive HeaderResult
  | Okay (rb : ReadBody)
  | NormError (is_head : Bool) (version : Version) (code : ErrorCode)
  | FatalError (code : ErrorCode)
  | ForceClose
deriving DecidableEq, Repr

/-- The successor chosen by the state machine after one event. -/
inductive NextK
  | readingBody (rb : ReadBody)
  | idleK
  | doneResponse
  | processing (close : Bool)
  | closedK
deriving DecidableEq, Repr

/-- The `100 Continue` line written by `server/parser.rs:286-288`:
`write!(output, "{} 100 Continue\r\n\r\n", version)`. -/
def continueLine (version : Version) : Bytes :=
  version.render ++ strBytes " 100 Continue\r\n\r\n"

/-- A digit of a hex chunk-size line. -/
def isHexDigit (c : Nat) : Bool :=
  (48 ≤ c && c ≤ 57) || (97 ≤ c && c ≤ 102) || (65 ≤ c && c ≤ 70)

/-- Value of a hex digit byte. -/
def hexVal (c : Nat) : Nat :=
  if 48 ≤ c ∧ c ≤ 57 then c - 48
  else if 97 ≤ c ∧ c ≤ 102 then c - 87
  else if 65 ≤ c ∧ c ≤ 70 then c - 55
  else 0

/-- Modelled from the spec: `httparse::parse_chunk_size` is called from
`server/parser.rs` and `client/parser.rs` but is not part of this
repository.  §4.3: the chunk-size line is CRLF-delimited; parse the hex
number, ignoring any `;`-prefixed extension; a malformed line is a fatal
error.  The argument always ends with the located CRLF. -/
def parse_chunk_size (line : Bytes) : Option Nat :=
  if line.length < 2 then none
  else
    let core := line.take (line.length - 2)
    let sizeDigits := core.takeWhile isHexDigit
    let rest := core.drop sizeDigits.length
    if sizeDigits.isEmpty then none
    else if rest.isEmpty || rest.headD 0 = 59 then
      let n := sizeDigits.foldl (fun a c => a * 16 + hexVal c) 0
      if n < 2 ^ 64 then some n else none
    else none

/-- `Parser::complete` (`server/parser.rs:105-127`): the disposition after
a body-phase handler return.  `none` is the failed
`assert!(response.is_complete())`. -/
def Parser.complete (machine : Option Unit) (resp : MessageState)
    (connection_close : Bool) : Option NextK :=
  match machine with
  | some _ => some (.processing connection_close)
  | none =>
    if resp.is_complete then
      some (if connection_close then .doneResponse else .idleK)
    else none

/-- `Parser::error` (`server/parser.rs:85-95`): emit the error page if the
response was not started, `finish` it, and flush before closing.  Returns
the output buffer, the builder state reached before `finish`, and the
next state; `none` is a panic inside the page builder. -/
def Parser.error (resp : Msg) (code : ErrorCode) :
    Option (Bytes × MessageState × NextK) :=
  match (if resp.2.is_started then some resp else emit_error_page code resp) with
  | none => none
  | some r => some ((Response.finish r).1, r.2, .doneResponse)

/-- The `parse_headers` body after a complete header block has been
parsed (`server/parser.rs:256-312`): scan the headers, build the fresh
response, call `headers_received` (an arbitrary handler function from
the fresh response to its final response and return value), apply the
buffer-size panic and payload-too-large guards, and emit the
`100 Continue` line when applicable.  Returns the output buffer and the
`HeaderResult`; `none` is the `panic!` on `Buffered(x)` with
`x >= MAX_BUF_SIZE` (the buffer bound of the stream adapter, passed here
as `maxBufSize`) or the `unimplemented!()` in `start_body`. -/
def parse_headers_core (version : Version) (is_head : Bool)
    (headers : List HttpHeader)
    (handler : Msg → Msg × Option (RecvMode × Nat))
    (out : Bytes) (maxBufSize : Nat) : Option (Bytes × HeaderResult) :=
  match scan_headers version headers with
  | none => some (out, .FatalError .BadRequest)
  | some (body, expect, close) =>
    let hres := handler (Response.new out version is_head close)
    let res := hres.1
    match hres.2 with
    | some (mode, _dline) =>
      if (match mode with
          | RecvMode.Buffered x => maxBufSize ≤ x
          | _ => false : Bool) then none
      else if (match mode, body with
          | RecvMode.Buffered y, BodyKind.Fixed x => y ≤ x
          | _, _ => false : Bool) then
        some (res.1, .FatalError .PayloadTooLarge)
      else
        let outBuf :=
          if expect && !res.2.is_started then res.1 ++ continueLine version
          else res.1
        match start_body mode body with
        | none => none
        | some prog =>
          some (outBuf, .Okay ⟨some (), res.2, prog, close⟩)
    | none =>
      if res.2.is_started then some (res.1, .ForceClose)
      else if close || body ≠ BodyKind.Fixed 0 then
        some (res.1, .FatalError .BadRequest)
      else some (res.1, .NormError is_head version .BadRequest)

/-- The `ReadHeaders` arm of `bytes_read` (`server/parser.rs:390-417`)
after a complete header block: dispatch on the `HeaderResult`.  `none` is
a panic. -/
def read_headers_step (version : Version) (is_head : Bool)
    (headers : List HttpHeader)
    (handler : Msg → Msg × Option (RecvMode × Nat))
    (out : Bytes) (maxBufSize : Nat) : Option (Bytes × NextK) :=
  match parse_headers_core version is_head headers handler out maxBufSize with
  | none => none
  | some (buf, .Okay rb) => some (buf, .readingBody rb)
  | some (buf, .NormError ih v code) =>
    match emit_error_page code (Response.new buf v ih false) with
    | none => none
    | some r =>
      let fin := Response.finish r
      if fin.2 then some (fin.1, .idleK) else some (fin.1, .doneResponse)
  | some (buf, .FatalError code) =>
    match emit_error_page code (Response.new buf .http10 false true) with
    | none => none
    | some r => some (r.1, .doneResponse)
  | some (buf, .ForceClose) => some (buf, .closedK)

/-- The server handler callbacks of one connection, as arbitrary
functions (`server/protocol.rs` `Server`); the machine value is `Unit`,
a `none` return consumes it. -/
structure ServerFuns where
  request_received : Bytes → Msg → Option Unit × Msg
  request_chunk : Bytes → Msg → Option Unit × Msg
  request_end : Msg → Option Unit × Msg
  bad_request : Msg → Msg

/-- `machine.and_then(|m| f(..))`: the callback runs only when the
machine is still present. -/
def runMachine (machine : Option Unit) (f : Msg → Option Unit × Msg)
    (resp : Msg) : Option Unit × Msg :=
  match machine with
  | none => (none, resp)
  | some _ => f resp

/-- `machine.map(|m| m.bad_request(..))`. -/
def runBadRequest (machine : Option Unit) (f : Msg → Msg) (resp : Msg) :
    Msg :=
  match machine with
  | none => resp
  | some _ => f resp

/-- The result of one `ReadingBody` event: the new input and output
buffers, the builder state at the end of the event (carried for
specification purposes; the source drops it on terminal transitions) and
the successor state; or `blocked` when the current I/O expectation is not
yet satisfied by the buffer; or `crash` for a panic. -/
inductive StepRes
  | step (inp out : Bytes) (resp : MessageState) (k : NextK)
  | blocked
  | crash
deriving DecidableEq, Repr

/-- The `ReadingBody` arm of `bytes_read` (`server/parser.rs:419-557`),
combined with the I/O expectation computed by `intent`
(`server/parser.rs:338-352`): `blocked` when the buffer does not satisfy
the expectation, and the `LimitReached` path of `exception`
(`server/parser.rs:583-598`) when a chunk-size delimiter is not found
within `MAX_CHUNK_HEAD` bytes. -/
def reading_body_step (funs : ServerFuns) (rb : ReadBody)
    (inp out : Bytes) : StepRes :=
  match rb.progress with
  | .BufferFixed x =>
    if inp.length < x then .blocked
    else
      let r := runMachine rb.machine (funs.request_received (inp.take x))
        (out, rb.response)
      match Parser.complete r.1 r.2.2 rb.connection_close with
      | none => .crash
      | some k => .step (inp.drop x) r.2.1 r.2.2 k
  | .BufferChunked limit off 0 =>
    let lenstart := consumed off
    match findCRLF inp lenstart with
    | none =>
      if lenstart + MAX_CHUNK_HEAD ≤ inp.length then
        let resp := runBadRequest rb.machine funs.bad_request
          (out, rb.response)
        match Parser.error resp .BadRequest with
        | none => .crash
        | some (buf, rs, k) => .step inp buf rs k
      else .blocked
    | some a =>
      let line := (inp.drop lenstart).take (a + 2 - lenstart)
      match parse_chunk_size line with
      | some 0 =>
        let inp1 := inp.take off ++ inp.drop (a + 2)
        let r := runMachine rb.machine
          (funs.request_received (inp1.take off)) (out, rb.response)
        match Parser.complete r.1 r.2.2 rb.connection_close with
        | none => .crash
        | some k => .step (inp1.drop off) r.2.1 r.2.2 k
      | some chunkLen =>
        if limit < off + chunkLen then
          let resp := runBadRequest rb.machine funs.bad_request
            (out, rb.response)
          match Parser.error resp .BadRequest with
          | none => .crash
          | some (buf, rs, k) => .step (inp.drop (a + 2)) buf rs k
        else
          .step (inp.take off ++ inp.drop (a + 2)) out rb.response
            (.readingBody { rb with
              progress := .BufferChunked limit off chunkLen })
      | none =>
        let resp := runBadRequest rb.machine funs.bad_request
          (out, rb.response)
        match Parser.error resp .BadRequest with
        | none => .crash
        | some (buf, rs, k) => .step (inp.drop (a + 2)) buf rs k
  | .BufferChunked limit off left =>
    if inp.length < off + left + 2 then .blocked
    else
      .step inp out rb.response
        (.readingBody { rb with
          progress := .BufferChunked limit (off + left) 0 })
  | .ProgressiveFixed hint left =>
    if inp.length < min hint left then .blocked
    else
      let real := min inp.length left
      let r := runMachine rb.machine (funs.request_chunk (inp.take real))
        (out, rb.response)
      let left1 := left - real
      if left1 = 0 then
        let r2 := runMachine r.1 funs.request_end r.2
        match Parser.complete r2.1 r2.2.2 rb.connection_close with
        | none => .crash
        | some k => .step (inp.drop real) r2.2.1 r2.2.2 k
      else
        .step (inp.drop real) r.2.1 r.2.2
          (.readingBody ⟨r.1, r.2.2, .ProgressiveFixed hint left1,
            rb.connection_close⟩)
  | .ProgressiveChunked hint off 0 =>
    match findCRLF inp off with
    | none =>
      if off + MAX_CHUNK_HEAD ≤ inp.length then
        let resp := runBadRequest rb.machine funs.bad_request
          (out, rb.response)
        match Parser.error resp .BadRequest with
        | none => .crash
        | some (buf, rs, k) => .step inp buf rs k
      else .blocked
    | some a =>
      let line := (inp.drop off).take (a + 2 - off)
      match parse_chunk_size line with
      | some 0 =>
        let inp1 := inp.take off ++ inp.drop (a + 2)
        let r1 :=
          if 0 < off then
            runMachine rb.machine (funs.request_chunk (inp1.take off))
              (out, rb.response)
          else (rb.machine, (out, rb.response))
        let r2 := runMachine r1.1 funs.request_end r1.2
        match Parser.complete r2.1 r2.2.2 rb.connection_close with
        | none => .crash
        | some k => .step (inp1.drop off) r2.2.1 r2.2.2 k
      | some chunkLen =>
        .step (inp.take off ++ inp.drop (a + 2)) out rb.response
          (.readingBody { rb with
            progress := .ProgressiveChunked hint off chunkLen })
      | none =>
        let resp := runBadRequest rb.machine funs.bad_request
          (out, rb.response)
        match Parser.error resp .BadRequest with
        | none => .crash
        | some (buf, rs, k) => .step (inp.drop (a + 2)) buf rs k
  | .ProgressiveChunked hint off left =>
    if inp.length < min hint (off + left) + 2 then .blocked
    else
      let cut : Bool := off + left ≤ hint
      let inp1 :=
        if cut then inp.take (off + left) ++ inp.drop (off + left + 2)
        else inp
      let ln := if cut then off + left else inp.length
      let left1 := left - (ln - off)
      if ln < hint then
        .step inp1 out rb.response
          (.readingBody { rb with
            progress := .ProgressiveChunked hint ln left1 })
      else
        let r := runMachine rb.machine (funs.request_chunk (inp1.take ln))
          (out, rb.response)
        .step (inp1.drop ln) r.2.1 r.2.2
          (.readingBody ⟨r.1, r.2.2, .ProgressiveChunked hint 0 left1,
            rb.connection_close⟩)

/-- The `Processing` arm of `wakeup` (`server/parser.rs:673-677`):
run the handler's `wakeup` and dispatch through `Parser::complete`. -/
def processing_wakeup (wakeupFn : Msg → Option Unit × Msg)
    (resp : MessageState) (close : Bool) (out : Bytes) :
    Option (Bytes × MessageState × NextK) :=
  let r := wakeupFn (out, resp)
  match Parser.complete r.1 r.2.2 close with
  | none => none
  | some k => some (r.2.1, r.2.2, k)

/-- The `Processing` arm of `timeout` (`server/parser.rs:644-652`). -/
def processing_timeout (timeoutFn : Msg → Option Unit × Msg)
    (resp : MessageState) (close : Bool) (out : Bytes) :
    Option (Bytes × MessageState × NextK) :=
  let r := timeoutFn (out, resp)
  match r.1 with
  | some _ =>
    match Parser.complete (some ()) r.2.2 close with
    | none => none
    | some k => some (r.2.1, r.2.2, k)
  | none => Parser.error r.2 .RequestTimeout

/-- `bytes_flushed` (`server/parser.rs:566-574`): in the `DoneResponse`
state the machine returns `Intent::done()` and the connection closes;
every other state re-arms its expectation. -/
def bytes_flushed_step (k : NextK) : NextK :=
  match k with
  | .doneResponse => .closedK
  | other => other

/-- Whether the framed request body ends at the current event: nothing
left of a fixed framing once the buffered bytes cover it, or the next
chunk-size line of a chunked framing parses to zero. -/
def framingFinished (p : BodyProgress) (inp : Bytes) : Bool :=
  match p with
  | .BufferFixed x => decide (x ≤ inp.length)
  | .BufferChunked _ off 0 =>
    match findCRLF inp (consumed off) with
    | some a =>
      parse_chunk_size ((inp.drop (consumed off)).take
        (a + 2 - consumed off)) == some 0
    | none => false
  | .BufferChunked _ _ _ => false
  | .ProgressiveFixed _ left => decide (left ≤ inp.length)
  | .ProgressiveChunked _ off 0 =>
    match findCRLF inp off with
    | some a => parse_chunk_size ((inp.drop off).take (a + 2 - off)) == some 0
    | none => false
  | .ProgressiveChunked _ _ _ => false

/-! ## `src/client`: the client role -/

namespace Client

/-- `client/head.rs` `BodyKind` (responses). -/
inductive BodyKind
  | Fixed (n : Nat)
  | Chunked
  | Eof
deriving DecidableEq, Repr

/-- The mutable locals of the client `scan_headers` loop. -/
structure ScanSt where
  has_content_length : Bool
  close : Bool
  result : BodyKind
deriving DecidableEq, Repr

/-- The non-bodiless part of the client `scan_headers` loop
(`client/parser.rs:121-151`); same structure as the server loop but with
`Eof` as the default result and no `Expect` arm. -/
def scanItem (st : ScanSt) (h : HttpHeader) : Option ScanSt :=
  if is_transfer_encoding h.name then
    let enc := (splitByte 44 h.value).getLastD []
    if is_chunked enc then
      some { st with
        close := st.close || st.has_content_length,
        result := .Chunked }
    else some st
  else if is_content_length h.name then
    if st.has_content_length then none
    else
      let st := { st with has_content_length := true }
      if st.result ≠ BodyKind.Chunked then
        match parse_u64 h.value with
        | some len => some { st with result := .Fixed len }
        | none => none
      else
        some { st with close := true }
  else if is_connection h.name then
    if (splitByte 44 h.value).any is_close then
      some { st with close := true }
    else some st
  else some st

/-- The loop over the headers. -/
def scanLoop : List HttpHeader → ScanSt → Option ScanSt
  | [], st => some st
  | h :: rest, st => do scanLoop rest (← scanItem st h)

/-- Whether a `Connection: close` token occurs (the only thing the
bodiless branch of the client `scan_headers` looks at,
`client/parser.rs:110-117`). -/
def hasCloseToken (headers : List HttpHeader) : Bool :=
  headers.any fun h =>
    is_connection h.name && (splitByte 44 h.value).any is_close

/-- `client/parser.rs:94-153` `scan_headers`: resolves the response body
framing and close flag; `none` is the `Err(())` fatal error.  Note the
bodiless test is `code > 100 && code < 200`, so status `100` is not in
the bodiless set. -/
def scan_headers (is_head : Bool) (code : Nat)
    (headers : List HttpHeader) : Option (BodyKind × Bool) :=
  if is_head || (100 < code && code < 200) || code = 204 || code = 304 then
    some (.Fixed 0, hasCloseToken headers)
  else do
    let st ← scanLoop headers
      { has_content_length := false, close := false, result := .Eof }
    some (st.result, st.close)

/-- The outcome of driving the client's `BufferChunked` body tracker
(`client/parser.rs:367-405`) over a fixed input buffer until the body is
delivered to `response_received`, the tracker reports a bad response, or
it waits for input that will never arrive. -/
inductive RunRes
  | delivered (body : Bytes) (leftover : Bytes)
  | stalled
  | failed
  | fuelOut
deriving DecidableEq, Repr

/-- One-connection driver for the client `BufferChunked` progress: the
alternation between `Delimiter`-expected chunk-size lines and
`Bytes(off+y+2)`-expected chunk data of `client/parser.rs:367-405`,
with the expectations of `client/parser.rs:274-278`. -/
def runBufferChunked (fuel : Nat) (limit off left : Nat) (inp : Bytes) :
    RunRes :=
  match fuel with
  | 0 => .fuelOut
  | fuel + 1 =>
    match left with
    | 0 =>
      let lenstart := consumed off
      match findCRLF inp lenstart with
      | none => .stalled
      | some a =>
        let line := (inp.drop lenstart).take (a + 2 - lenstart)
        match parse_chunk_size line with
        | some 0 =>
          let inp1 := inp.take off ++ inp.drop (a + 2)
          .delivered (inp1.take off) (inp1.drop off)
        | some chunkLen =>
          if limit < off + chunkLen then .failed
          else
            runBufferChunked fuel limit off chunkLen
              (inp.take off ++ inp.drop (a + 2))
        | none => .failed
    | _ =>
      if inp.length < off + left + 2 then .stalled
      else runBufferChunked fuel limit (off + left) 0 inp

end Client

/-- The response-serialization script of the round-trip law for chunked
framing: status `200 OK`, `add_chunked`, `done_headers`, one
`write_body`, `done` (all through `src/message.rs`). -/
def serializeChunkedResponse (body : Bytes) : Option Bytes := do
  let m := Response.new [] .http11 false false
  let m ← Message.response_status m 200 "OK"
  let m ← (← Message.add_chunked m).toOption
  let (m, r) ← Message.done_headers m
  let _ ← r.toOption
  let m ← Message.write_body m body
  let m ← Message.done m
  some m.1

/-- The response-serialization script of the round-trip law for fixed
framing: status `200 OK`, ordinary headers, `add_length`, `done_headers`,
one `write_body` of exactly the declared bytes, `done`. -/
def serializeFixedResponse (hdrs : List (String × Bytes)) (body : Bytes) :
    Option Bytes := do
  let m := Response.new [] .http11 false false
  let m ← Message.response_status m 200 "OK"
  let m ← hdrs.foldlM (fun m h => do
    (← Message.add_header m h.1 h.2).toOption) m
  let m ← (← Message.add_length m body.length).toOption
  let (m, r) ← Message.done_headers m
  let _ ← r.toOption
  let m ← Message.write_body m body
  let m ← Message.done m
  some m.1

/-! ## Specification-side definitions

These follow the wording of the specification claims; they are compared
with the source-derived definitions above. -/

/-- The claims' token predicate for `close`: the value with leading and
trailing whitespace removed equals `close` ASCII case-insensitively. -/
def spec_is_close (v : Bytes) : Bool :=
  (trimWs v).map toLowerByte = strBytes "close"

/-- The claims' token predicate for `chunked`. -/
def spec_is_chunked (v : Bytes) : Bool :=
  (trimWs v).map toLowerByte = strBytes "chunked"

/-- What the source token matchers actually recognize: the value is long
enough to hold the token and, after skipping leading whitespace, either
nothing remains, or the token is a case-insensitive prefix of the
remainder (trailing bytes are never inspected). -/
def token_prefix_match (tok : Bytes) (v : Bytes) : Bool :=
  decide (tok.length ≤ v.length) &&
  (let r := v.dropWhile isWsByte
   r.isEmpty ||
     (decide (tok.length ≤ r.length) &&
      decide ((r.take tok.length).map toLowerByte = tok)))

/-- The C3 claim's trigger: some `Transfer-Encoding` header whose last
comma-separated token, trimmed, equals `chunked` case-insensitively. -/
def hasChunkedTEspec (headers : List HttpHeader) : Bool :=
  headers.any fun h =>
    is_transfer_encoding h.name &&
    spec_is_chunked ((splitByte 44 h.value).getLastD [])

/-- The same trigger through the source matcher `is_chunked`. -/
def hasChunkedTE (headers : List HttpHeader) : Bool :=
  headers.any fun h =>
    is_transfer_encoding h.name &&
    is_chunked ((splitByte 44 h.value).getLastD [])

/-- Number of `Content-Length` headers. -/
def countCL (headers : List HttpHeader) : Nat :=
  (headers.filter fun h => is_content_length h.name).length

/-- Executable substring test. -/
def containsSub (needle hay : Bytes) : Bool :=
  (List.range (hay.length + 1)).any fun i =>
    (hay.drop i).take needle.length = needle

/-- The bytes the default error page appends to the output buffer for a
fresh `HTTP/1.0`, close-flagged response (the shape built by the
`FatalError` arm of `bytes_read` and by `Parser::raw_error`). -/
def errorPageBytes (code : ErrorCode) : Bytes :=
  match emit_error_page code (Response.new [] .http10 false true) with
  | some m => m.1
  | none => []

/-! ## Supporting lemmas -/

theorem zip_all_eq_map (f : Nat → Nat) :
    ∀ (l t : Bytes), l.length = t.length →
      ((List.zip l t).all fun p => f p.1 = p.2) = decide (l.map f = t) := by
  intro l
  induction l with
  | nil => intro t h; cases t <;> simp_all
  | cons c l ih =>
    intro t h
    cases t with
    | nil => simp at h
    | cons d t =>
      simp only [List.zip_cons_cons, List.all_cons, List.map_cons]
      rw [ih t (by simpa using h)]
      by_cases hc : f c = d <;> simp [hc]

theorem finish_true (m : Msg) (b : Bytes) :
    Response.finish m = (b, true) → m.2 = .Done := by
  intro h
  by_cases hc : m.2.is_complete
  · cases h2 : m.2 <;> simp_all [MessageState.is_complete]
  · unfold Response.finish at h
    rw [if_neg hc] at h
    cases h2 : m.2 <;> rw [h2] at h <;> simp_all
    rename_i v bd cl
    cases bd <;> simp_all

theorem complete_idle (m : Option Unit) (st : MessageState) (c : Bool) :
    Parser.complete m st c = some .idleK → m = none ∧ st = .Done ∧ c = false := by
  intro h
  cases m with
  | some u => simp [Parser.complete] at h
  | none =>
    unfold Parser.complete at h
    by_cases hc : st.is_complete
    · rw [if_pos hc] at h
      cases c <;> simp_all
      cases st <;> simp_all [MessageState.is_complete]
    · simp [hc] at h

theorem error_next (resp : Msg) (code : ErrorCode) (b : Bytes)
    (rs : MessageState) (k : NextK) :
    Parser.error resp code = some (b, rs, k) → k = .doneResponse := by
  unfold Parser.error
  cases h : (if resp.2.is_started = true then some resp
    else emit_error_page code resp) <;> intro hh <;> simp_all

theorem except_toOption_map {α β ε : Type} (f : α → β) (e : Except ε α) :
    (e.map f).toOption = e.toOption.map f := by
  cases e <;> rfl

theorem response_status_shift (b buf : Bytes) (st : MessageState) (c : Nat)
    (r : String) :
    Message.response_status (b ++ buf, st) c r =
      (Message.response_status (buf, st) c r).map fun m => (b ++ m.1, m.2) := by
  cases st <;> simp [Message.response_status, List.append_assoc]

theorem add_header_shift (b buf : Bytes) (st : MessageState) (n : String)
    (v : Bytes) :
    Message.add_header (b ++ buf, st) n v =
      (Message.add_header (buf, st) n v).map
        (Except.map fun m => (b ++ m.1, m.2)) := by
  unfold Message.add_header
  split
  · rfl
  · cases st <;> simp [Message.write_header, Except.map, List.append_assoc]

theorem add_length_shift (b buf : Bytes) (st : MessageState) (n : Nat) :
    Message.add_length (b ++ buf, st) n =
      (Message.add_length (buf, st) n).map
        (Except.map fun m => (b ++ m.1, m.2)) :=
  match st with
  | .Headers _ true _ _ (some _) => rfl
  | .Headers _ false _ _ (some _) => rfl
  | .Headers _ true _ _ none => rfl
  | .Headers _ false _ _ none => by
    simp [Message.add_length, Message.write_header, Except.map,
      List.append_assoc]
  | .ResponseStart _ _ _ => rfl
  | .RequestStart => rfl
  | .ZeroBodyMessage => rfl
  | .IgnoredBody => rfl
  | .FixedSizeBody _ => rfl
  | .ChunkedBody => rfl
  | .Done => rfl

theorem done_headers_shift (b buf : Bytes) (st : MessageState) :
    Message.done_headers (b ++ buf, st) =
      (Message.done_headers (buf, st)).map
        fun p => ((b ++ p.1.1, p.1.2), p.2) :=
  match st with
  | .Headers bd ch cl rq co => by
    cases cl <;> cases bd <;> cases co <;> cases ch <;> cases rq <;>
      simp [Message.done_headers, Message.write_header, List.append_assoc]
  | .ResponseStart _ _ _ => rfl
  | .RequestStart => rfl
  | .ZeroBodyMessage => rfl
  | .IgnoredBody => rfl
  | .FixedSizeBody _ => rfl
  | .ChunkedBody => rfl
  | .Done => rfl

theorem write_body_shift (b buf : Bytes) (st : MessageState) (data : Bytes) :
    Message.write_body (b ++ buf, st) data =
      (Message.write_body (buf, st) data).map fun m => (b ++ m.1, m.2) :=
  match st with
  | .ZeroBodyMessage => by
    by_cases h : data.length ≠ 0 <;>
      simp [Message.write_body, h]
  | .FixedSizeBody x => by
    by_cases h : data.length > x <;>
      simp [Message.write_body, h, List.append_assoc]
  | .ChunkedBody => by simp [Message.write_body, List.append_assoc]
  | .ResponseStart _ _ _ => rfl
  | .RequestStart => rfl
  | .Headers _ _ _ _ _ => rfl
  | .IgnoredBody => rfl
  | .Done => rfl

theorem done_shift (b buf : Bytes) (st : MessageState) :
    Message.done (b ++ buf, st) =
      (Message.done (buf, st)).map fun m => (b ++ m.1, m.2) :=
  match st with
  | .ChunkedBody => by simp [Message.done, List.append_assoc]
  | .FixedSizeBody 0 => rfl
  | .FixedSizeBody (_ + 1) => rfl
  | .ZeroBodyMessage => rfl
  | .IgnoredBody => rfl
  | .Done => rfl
  | .ResponseStart _ _ _ => rfl
  | .RequestStart => rfl
  | .Headers _ _ _ _ _ => rfl

theorem emit_error_page_shift (code : ErrorCode) (b buf : Bytes)
    (st : MessageState) :
    emit_error_page code (b ++ buf, st) =
      (emit_error_page code (buf, st)).map fun m => (b ++ m.1, m.2) := by
  unfold emit_error_page
  rcases hc : code.http_status with ⟨status, reason⟩
  dsimp only []
  rw [response_status_shift]
  cases hm : Message.response_status (buf, st) status reason with
  | none => rfl
  | some m1 =>
    simp only [Option.map_some', Option.bind_eq_bind, Option.some_bind]
    rw [add_length_shift b m1.1 m1.2]
    cases h2 : Message.add_length (m1.1, m1.2)
      (List.length (strBytes ("<h1>" ++ toString status ++ " " ++ reason ++
        "</h1>\n<p><small>Served for you by rotor-http</small></p>\n"))) with
    | none => rfl
    | some e1 =>
      cases e1 with
      | error err => rfl
      | ok m2 =>
        simp only [Option.map_some', Except.map, Except.toOption,
          Option.bind_eq_bind, Option.some_bind]
        rw [add_header_shift b m2.1 m2.2]
        cases h3 : Message.add_header (m2.1, m2.2) "Content-Type"
          (strBytes "text/html") with
        | none => rfl
        | some e2 =>
          cases e2 with
          | error err => rfl
          | ok m3 =>
            simp only [Option.map_some', Except.map, Except.toOption,
              Option.bind_eq_bind, Option.some_bind]
            rw [done_headers_shift b m3.1 m3.2]
            cases h4 : Message.done_headers (m3.1, m3.2) with
            | none => rfl
            | some p =>
              rcases p with ⟨m4, r4⟩
              cases r4 with
              | error err => rfl
              | ok bb =>
                simp only [Option.map_some', Except.toOption,
                  Option.bind_eq_bind, Option.some_bind]
                rw [write_body_shift b m4.1 m4.2]
                cases h5 : Message.write_body (m4.1, m4.2)
                  (strBytes ("<h1>" ++ toString status ++ " " ++ reason ++
                    "</h1>\n<p><small>Served for you by rotor-http</small></p>\n")) with
                | none => rfl
                | some m5 =>
                  simp only [Option.map_some', Option.bind_eq_bind, Option.some_bind]
                  rw [done_shift b m5.1 m5.2]

set_option maxRecDepth 8000 in
theorem emit_error_page_concrete (code : ErrorCode) :
    emit_error_page code (Response.new [] .http10 false true) =
      some (errorPageBytes code, .Done) := by
  cases code <;> decide

theorem emit_error_page_fresh (code : ErrorCode) (buf : Bytes) :
    emit_error_page code (Response.new buf .http10 false true) =
      some (buf ++ errorPageBytes code, .Done) := by
  have h0 : Response.new buf .http10 false true =
      ((buf ++ [] : Bytes), (Response.new [] .http10 false true).2) := by
    simp [Response.new]
  rw [h0, emit_error_page_shift, show (Response.new [] .http10 false true).2 =
    (Response.new ([] : Bytes) .http10 false true).2 from rfl]
  have := emit_error_page_concrete code
  simp [Response.new] at this ⊢
  simp [this]

theorem toLowerByte_eq_c (ch : Nat) : (toLowerByte ch = 99) ↔ (ch = 99 ∨ ch = 67) := by
  unfold toLowerByte
  split <;> omega

theorem isCloseScan_char : ∀ (l : Bytes) (idx : Nat),
    isCloseScan (idx + l.length) l idx =
      ((l.dropWhile isWsByte).isEmpty ||
       (decide (5 ≤ (l.dropWhile isWsByte).length) &&
        decide (((l.dropWhile isWsByte).take 5).map toLowerByte =
          strBytes "close"))) := by
  intro l
  induction l with
  | nil => intro idx; simp [isCloseScan]
  | cons ch rest ih =>
    intro idx
    by_cases hws : isWsByte ch
    · have h1 : idx + (ch :: rest).length = (idx + 1) + rest.length := by
        simp [List.length_cons]; omega
      rw [show isCloseScan (idx + (ch :: rest).length) (ch :: rest) idx =
        isCloseScan ((idx + 1) + rest.length) rest (idx + 1) by
          rw [isCloseScan, if_pos hws, h1]]
      rw [ih (idx + 1)]
      simp [List.dropWhile_cons, hws]
    · have hws' : isWsByte ch = false := by simpa using hws
      rw [show isCloseScan (idx + (ch :: rest).length) (ch :: rest) idx =
        (if ch = 99 || ch = 67 then
          (if idx + (ch :: rest).length < idx + 5 then false
           else (List.zip (rest.take 4) (strBytes "lose")).all
             fun p => toLowerByte p.1 = p.2)
         else false) by rw [isCloseScan, if_neg hws]]
      rw [show (ch :: rest).dropWhile isWsByte = ch :: rest by
        simp [List.dropWhile_cons, hws']]
      by_cases hc : (ch = 99 ∨ ch = 67)
      · have hcb : (ch = 99 || ch = 67) = true := by
          rcases hc with h | h <;> simp [h]
        rw [if_pos hcb]
        have hlow : toLowerByte ch = 99 := (toLowerByte_eq_c ch).mpr hc
        by_cases hlen : rest.length < 4
        · rw [if_pos (by simp [List.length_cons]; omega)]
          have h5 : (decide (5 ≤ (ch :: rest).length)) = false := by
            simp [List.length_cons]; omega
          simp [h5]
          intro h
          omega
        · rw [if_neg (by simp [List.length_cons]; omega)]
          have h4 : (rest.take 4).length = 4 := by
            simp [List.length_take]; omega
          rw [zip_all_eq_map toLowerByte (rest.take 4) (strBytes "lose")
            (by rw [h4]; decide)]
          have h5 : (decide (5 ≤ (ch :: rest).length)) = true := by
            simp [List.length_cons]; omega
          simp only [List.isEmpty_cons, Bool.false_or, h5, Bool.true_and]
          rw [decide_eq_decide]
          constructor
          · intro hm
            rw [show (ch :: rest).take 5 = ch :: rest.take 4 from rfl,
              List.map_cons, hlow, hm]
            rfl
          · intro hm
            rw [show (ch :: rest).take 5 = ch :: rest.take 4 from rfl,
              List.map_cons,
              show strBytes "close" = 99 :: strBytes "lose" from rfl] at hm
            simp only [List.cons.injEq] at hm
            exact hm.2
      · have hcb : (ch = 99 || ch = 67) = false := by
          simp only [Bool.or_eq_false_iff, decide_eq_false_iff_not]
          exact ⟨fun h => hc (Or.inl h), fun h => hc (Or.inr h)⟩
        rw [if_neg (by simp [hcb])]
        have hlow : toLowerByte ch ≠ 99 :=
          fun h => hc ((toLowerByte_eq_c ch).mp h)
        have hfail : (decide (((ch :: rest).take 5).map toLowerByte =
            strBytes "close")) = false := by
          rw [decide_eq_false_iff_not]
          intro hm
          rw [show (ch :: rest).take 5 = ch :: rest.take 4 from rfl,
            List.map_cons,
            show strBytes "close" = 99 :: strBytes "lose" from rfl] at hm
          simp only [List.cons.injEq] at hm
          exact hlow hm.1
        simp [hfail]
        intro _ hm
        rw [show strBytes "close" = 99 :: strBytes "lose" from rfl] at hm
        simp only [List.cons.injEq] at hm
        exact hlow hm.1

theorem isChunkedScan_char : ∀ (l : Bytes) (idx : Nat),
    isChunkedScan (idx + l.length) l idx =
      ((l.dropWhile isWsByte).isEmpty ||
       (decide (7 ≤ (l.dropWhile isWsByte).length) &&
        decide (((l.dropWhile isWsByte).take 7).map toLowerByte =
          strBytes "chunked"))) := by
  intro l
  induction l with
  | nil => intro idx; simp [isChunkedScan]
  | cons ch rest ih =>
    intro idx
    by_cases hws : isWsByte ch
    · have h1 : idx + (ch :: rest).length = (idx + 1) + rest.length := by
        simp [List.length_cons]; omega
      rw [show isChunkedScan (idx + (ch :: rest).length) (ch :: rest) idx =
        isChunkedScan ((idx + 1) + rest.length) rest (idx + 1) by
          rw [isChunkedScan, if_pos hws, h1]]
      rw [ih (idx + 1)]
      simp [List.dropWhile_cons, hws]
    · have hws' : isWsByte ch = false := by simpa using hws
      rw [show isChunkedScan (idx + (ch :: rest).length) (ch :: rest) idx =
        (if ch = 99 || ch = 67 then
          (if idx + (ch :: rest).length < idx + 7 then false
           else (List.zip (rest.take 6) (strBytes "hunked")).all
             fun p => toLowerByte p.1 = p.2)
         else false) by rw [isChunkedScan, if_neg hws]]
      rw [show (ch :: rest).dropWhile isWsByte = ch :: rest by
        simp [List.dropWhile_cons, hws']]
      by_cases hc : (ch = 99 ∨ ch = 67)
      · have hcb : (ch = 99 || ch = 67) = true := by
          rcases hc with h | h <;> simp [h]
        rw [if_pos hcb]
        have hlow : toLowerByte ch = 99 := (toLowerByte_eq_c ch).mpr hc
        by_cases hlen : rest.length < 6
        · rw [if_pos (by simp [List.length_cons]; omega)]
          have h7b : (decide (7 ≤ (ch :: rest).length)) = false := by
            simp [List.length_cons]; omega
          simp [h7b]
          intro h
          omega
        · rw [if_neg (by simp [List.length_cons]; omega)]
          have h6 : (rest.take 6).length = 6 := by
            simp [List.length_take]; omega
          rw [zip_all_eq_map toLowerByte (rest.take 6) (strBytes "hunked")
            (by rw [h6]; decide)]
          have h7b : (decide (7 ≤ (ch :: rest).length)) = true := by
            simp [List.length_cons]; omega
          simp only [List.isEmpty_cons, Bool.false_or, h7b, Bool.true_and]
          rw [decide_eq_decide]
          constructor
          · intro hm
            rw [show (ch :: rest).take 7 = ch :: rest.take 6 from rfl,
              List.map_cons, hlow, hm]
            rfl
          · intro hm
            rw [show (ch :: rest).take 7 = ch :: rest.take 6 from rfl,
              List.map_cons,
              show strBytes "chunked" = 99 :: strBytes "hunked" from rfl] at hm
            simp only [List.cons.injEq] at hm
            exact hm.2
      · have hcb : (ch = 99 || ch = 67) = false := by
          simp only [Bool.or_eq_false_iff, decide_eq_false_iff_not]
          exact ⟨fun h => hc (Or.inl h), fun h => hc (Or.inr h)⟩
        rw [if_neg (by simp [hcb])]
        have hlow : toLowerByte ch ≠ 99 :=
          fun h => hc ((toLowerByte_eq_c ch).mp h)
        have hfail : (decide (((ch :: rest).take 7).map toLowerByte =
            strBytes "chunked")) = false := by
          rw [decide_eq_false_iff_not]
          intro hm
          rw [show (ch :: rest).take 7 = ch :: rest.take 6 from rfl,
            List.map_cons,
            show strBytes "chunked" = 99 :: strBytes "hunked" from rfl] at hm
          simp only [List.cons.injEq] at hm
          exact hlow hm.1
        simp [hfail]
        intro _ hm
        rw [show strBytes "chunked" = 99 :: strBytes "hunked" from rfl] at hm
        simp only [List.cons.injEq] at hm
        exact hlow hm.1

/-! ## Claim C9: token-value recognition -/

/-- C9 counterexample: the claim says the matchers recognize exactly the
whitespace-trimmed, case-insensitive token, and in particular reject
trailing non-whitespace garbage.  The source matchers never look past
the token, so `closed` and `chunkedfoo` are accepted (and so is a value
of nothing but whitespace). -/
theorem c9_counterexample :
    is_close (strBytes "closed") = true
    ∧ spec_is_close (strBytes "closed") = false
    ∧ is_chunked (strBytes "chunkedfoo") = true
    ∧ spec_is_chunked (strBytes "chunkedfoo") = false
    ∧ is_close (strBytes "       ") = true
    ∧ spec_is_close (strBytes "       ") = false := by
  refine ⟨by decide, by decide, by decide, by decide, by decide, by decide⟩

/-- C9 amended: `is_close(v)` returns true iff `v` is at least five bytes
long and, after skipping leading whitespace, either nothing remains or
`close` is an ASCII-case-insensitive prefix of the remainder (trailing
bytes are not inspected); `is_chunked` is the same with `chunked` and
seven bytes. -/
theorem c9_amended (v : Bytes) :
    is_close v = token_prefix_match (strBytes "close") v
    ∧ is_chunked v = token_prefix_match (strBytes "chunked") v := by
  constructor
  · unfold is_close token_prefix_match
    rw [show (strBytes "close").length = 5 from rfl]
    by_cases h : v.length < 5
    · rw [if_pos h]
      have h2 : (decide (5 ≤ v.length)) = false := by
        rw [decide_eq_false_iff_not]; omega
      rw [h2, Bool.false_and]
    · rw [if_neg h]
      have h5 : (decide (5 ≤ v.length)) = true := by
        rw [decide_eq_true_eq]; omega
      have hch := isCloseScan_char v 0
      rw [Nat.zero_add] at hch
      rw [hch, h5, Bool.true_and]
  · unfold is_chunked token_prefix_match
    rw [show (strBytes "chunked").length = 7 from rfl]
    by_cases h : v.length < 7
    · rw [if_pos h]
      have h2 : (decide (7 ≤ v.length)) = false := by
        rw [decide_eq_false_iff_not]; omega
      rw [h2, Bool.false_and]
    · rw [if_neg h]
      have h7 : (decide (7 ≤ v.length)) = true := by
        rw [decide_eq_true_eq]; omega
      have hch := isChunkedScan_char v 0
      rw [Nat.zero_add] at hch
      rw [hch, h7, Bool.true_and]

/-! ## Claim C2: round-trip law -/

/-- C2: evaluation of the round-trip law at the failing input.  The
builder serializes a chunked response with body `rotor` without the CRLF
after the chunk data and with a bare `0\r\n` terminator; the client-side
header scanner recovers status framing `Chunked`, but the client body
tracker driven over the serialized body section stalls without ever
delivering the body, whereas on a well-formed chunked body section (the
one from the repository's own client test) it delivers exactly `rotor`.
So parsing the builder's output does not deliver the written body, and
the round-trip law fails for chunked framing. -/
theorem c2_roundtrip_chunked_broken :
    serializeChunkedResponse (strBytes "rotor") =
      some (strBytes "HTTP/1.1 200 OK\r\nTransfer-Encoding: chunked\r\n\r\n"
        ++ strBytes "5\r\nrotor0\r\n")
    ∧ Client.scan_headers false 200
        [⟨strBytes "Transfer-Encoding", strBytes "chunked"⟩] =
        some (.Chunked, false)
    ∧ Client.runBufferChunked 32 16386 0 0 (strBytes "5\r\nrotor0\r\n") =
        .stalled
    ∧ Client.runBufferChunked 32 16386 0 0
        (strBytes "5\r\nrotor\r\n0\r\n\r\n") =
        .delivered (strBytes "rotor") (strBytes "\r\n") := by
  refine ⟨by decide, by decide, by decide, by decide⟩

/-! ## Claim C4: bodiless responses on the client side -/

/-- C4: evaluation of the client body-framing resolution at the failing
input.  The bodiless test of the client `scan_headers` is
`code > 100 && code < 200`, so a (non-HEAD) status-`100` response is
resolved from its headers (`Fixed 5` here, `Eof` without headers)
instead of the `Fixed(0)` the claim (and the function's own doc comment,
which says `1xx`) requires; `101`–`199`, `204`, `304` and HEAD responses
are `Fixed(0)` regardless of the declared length. -/
theorem c4_status100_not_bodiless :
    Client.scan_headers false 100
        [⟨strBytes "Content-Length", strBytes "5"⟩] =
      some (.Fixed 5, false)
    ∧ Client.scan_headers false 100 [] = some (.Eof, false)
    ∧ Client.scan_headers false 101
        [⟨strBytes "Content-Length", strBytes "5"⟩] = some (.Fixed 0, false)
    ∧ Client.scan_headers false 199
        [⟨strBytes "Content-Length", strBytes "5"⟩] = some (.Fixed 0, false)
    ∧ Client.scan_headers false 204
        [⟨strBytes "Content-Length", strBytes "5"⟩] = some (.Fixed 0, false)
    ∧ Client.scan_headers false 304
        [⟨strBytes "Transfer-Encoding", strBytes "chunked"⟩] =
      some (.Fixed 0, false)
    ∧ Client.scan_headers true 200
        [⟨strBytes "Content-Length", strBytes "12345"⟩] =
      some (.Fixed 0, false) := by
  refine ⟨by decide, by decide, by decide, by decide, by decide, by decide,
    by decide⟩

/-! ## Claim C7: `write_body` on a bodiless message -/

/-- C7 counterexample: the claim says `write_body` on an `Ignored` or
`Denied` builder silently drops any data, leaving buffer and state
unchanged.  In the source, `write_body` on `ZeroBodyMessage` (`Denied`)
panics on non-empty data, and the `write_body` match has no `IgnoredBody`
arm at all, so in the `Ignored` state even an empty write falls into the
catch-all panic. -/
theorem c7_counterexample :
    Message.write_body ([], .ZeroBodyMessage) (strBytes "x") = none
    ∧ Message.write_body ([], .IgnoredBody) [] = none
    ∧ Message.write_body ([], .IgnoredBody) (strBytes "x") = none := by
  refine ⟨by decide, by decide, by decide⟩

/-- C7 amended: on a `Denied` (`ZeroBodyMessage`) builder, `write_body`
with an empty slice is a no-op (no bytes appended, state unchanged) and
`write_body` with non-empty data panics; on an `Ignored` (`IgnoredBody`)
builder every `write_body` call panics; in particular no body bytes are
ever appended to the output buffer for such messages. -/
theorem c7_amended (buf data : Bytes) :
    (Message.write_body (buf, .ZeroBodyMessage) data =
      if data.length = 0 then some (buf, .ZeroBodyMessage) else none)
    ∧ Message.write_body (buf, .IgnoredBody) data = none := by
  constructor
  · by_cases h : data.length = 0 <;> simp [Message.write_body, h]
  · rfl

/-! ## Claim C8: empty chunked write -/

/-- C8: evaluation at the failing input.  A `write_body` with a
zero-length slice on a `Chunked` builder appends `0\r\n` — exactly the
bytes `done()` writes as the chunked end-of-body terminator — instead of
appending nothing as the claim requires. -/
theorem c8_empty_chunked_write_terminates :
    Message.write_body ([], .ChunkedBody) [] =
      some (strBytes "0\r\n", .ChunkedBody)
    ∧ Message.done ([], .ChunkedBody) = some (strBytes "0\r\n", .Done) := by
  refine ⟨by decide, by decide⟩

/-! ## Claim C10: the completion-path assertion -/

/-- C10: when a body-phase callback has consumed the handler (returned
`None`), `Parser::complete` fails its `assert!(response.is_complete())`
exactly when the response builder is not `Done`; when it is `Done`, the
connection flushes and closes if `connection_close` is set and otherwise
re-enters `Idle`.  The third part shows the panic is reachable from the
`BufferFixed` completion arm of `bytes_read` when `request_received`
returns `None` with an incomplete response. -/
theorem c10_complete_asserts_on_incomplete :
    (∀ (st : MessageState) (close : Bool),
      Parser.complete none st close = none ↔ st ≠ .Done)
    ∧ (∀ close : Bool, Parser.complete none .Done close =
        some (if close then NextK.doneResponse else NextK.idleK))
    ∧ (∀ (funs : ServerFuns) (rb : ReadBody) (x : Nat) (inp out : Bytes)
        (resp : Msg),
        rb.progress = .BufferFixed x → rb.machine = some () →
        ¬ inp.length < x →
        funs.request_received (inp.take x) (out, rb.response) =
          (none, resp) →
        resp.2 ≠ .Done →
        reading_body_step funs rb inp out = .crash) := by
  refine ⟨?_, ?_, ?_⟩
  · intro st close
    constructor
    · intro h hst
      rw [hst] at h
      cases close <;> simp [Parser.complete, MessageState.is_complete] at h
    · intro hst
      unfold Parser.complete
      cases st <;> simp_all [MessageState.is_complete]
  · intro close
    cases close <;> simp [Parser.complete, MessageState.is_complete]
  · intro funs rb x inp out resp hp hm hlen hrr hresp
    unfold reading_body_step
    rw [hp]
    simp only [if_neg hlen]
    rw [show runMachine rb.machine (funs.request_received (inp.take x))
      (out, rb.response) = (none, resp) by rw [hm]; simpa [runMachine]
        using hrr]
    have : Parser.complete none resp.2 rb.connection_close = none := by
      unfold Parser.complete
      cases h2 : resp.2 <;> simp_all [MessageState.is_complete]
    simp [this]

/-! ## Claim C3: request body-framing resolution -/


theorem headerNameIs_length (t v : Bytes) :
    headerNameIs t v = true → v.length = t.length := by
  unfold headerNameIs
  intro h
  exact of_decide_eq_true (Bool.and_elim_left h)

theorem cl_not_te (v : Bytes) :
    is_content_length v = true → is_transfer_encoding v = false := by
  intro h
  by_contra hte
  have h1 := headerNameIs_length _ _ h
  have h2 := headerNameIs_length _ _ (Bool.of_not_eq_false hte)
  rw [show (strBytes "content-length").length = 14 from rfl] at h1
  rw [show (strBytes "transfer-encoding").length = 17 from rfl] at h2
  omega

theorem item_cl_dup (st : ScanState) (h : HttpHeader)
    (hcl : is_content_length h.name = true)
    (hdup : st.has_content_length = true) :
    scanHeadersItem st h = none := by
  unfold scanHeadersItem
  rw [cl_not_te _ hcl]
  simp [hcl, hdup]

theorem item_cl_fresh (st : ScanState) (h : HttpHeader)
    (hcl : is_content_length h.name = true)
    (hdup : st.has_content_length = false) :
    scanHeadersItem st h =
      (if st.result ≠ BodyKind.Chunked then
        match parse_u64 h.value with
        | some len =>
          some { st with
            has_content_length := true,
            result := .Fixed len }
        | none => none
      else
        some { st with
          has_content_length := true,
          close := true }) := by
  unfold scanHeadersItem
  rw [cl_not_te _ hcl]
  simp only [Bool.false_eq_true, if_false, hcl, if_true, hdup]

theorem item_not_cl (st : ScanState) (h : HttpHeader)
    (hcl : is_content_length h.name = false) :
    ∃ st', scanHeadersItem st h = some st'
      ∧ st'.has_content_length = st.has_content_length
      ∧ st'.result = (if is_transfer_encoding h.name
          && is_chunked ((splitByte 44 h.value).getLastD []) then
            BodyKind.Chunked else st.result)
      ∧ (st.close = true → st'.close = true)
      ∧ ((st.result = .Chunked → st.has_content_length = true →
            st.close = true) →
         (st'.result = .Chunked → st'.has_content_length = true →
            st'.close = true)) := by
  unfold scanHeadersItem
  by_cases hte : is_transfer_encoding h.name = true
  · by_cases hch : is_chunked ((splitByte 44 h.value).getLastD []) = true
    · refine ⟨{ st with
          close := st.close || st.has_content_length,
          result := BodyKind.Chunked }, ?_, rfl, ?_, ?_, ?_⟩
      · rw [if_pos hte, if_pos hch]
      · simp only [hte, hch, Bool.and_self, if_true]
      · intro hc; simp [hc]
      · intro _ _ hhc
        rw [show st.has_content_length = true from hhc]
        simp
    · refine ⟨st, ?_, rfl, ?_, fun hc => hc, fun hv => hv⟩
      · rw [if_pos hte, if_neg hch]
      · have hch' : is_chunked ((splitByte 44 h.value).getLastD []) = false := by
          simpa using hch
        simp only [hch', Bool.and_false, Bool.false_eq_true, if_false]
  · have hte' : is_transfer_encoding h.name = false := by simpa using hte
    rw [if_neg (by simp [hte']), if_neg (by simp [hcl])]
    have hres : st.result = (if is_transfer_encoding h.name
        && is_chunked ((splitByte 44 h.value).getLastD []) then
          BodyKind.Chunked else st.result) := by
      simp only [hte', Bool.false_and, Bool.false_eq_true, if_false]
    by_cases hcon : is_connection h.name = true
    · by_cases hany : (splitByte 44 h.value).any is_close = true
      · refine ⟨{ st with close := true }, ?_, rfl, hres, fun _ => rfl,
          fun _ _ _ => rfl⟩
        rw [if_pos hcon, if_pos hany]
      · refine ⟨st, ?_, rfl, hres, fun hc => hc, fun hv => hv⟩
        rw [if_pos hcon, if_neg hany]
    · rw [if_neg hcon]
      by_cases hexp : is_expect h.name = true
      · by_cases hcont : is_continue h.value = true
        · refine ⟨{ st with expect_continue := true }, ?_, rfl, hres,
            fun hc => hc, fun hv => hv⟩
          rw [if_pos hexp, if_pos hcont]
        · refine ⟨st, ?_, rfl, hres, fun hc => hc, fun hv => hv⟩
          rw [if_pos hexp, if_neg hcont]
      · refine ⟨st, ?_, rfl, hres, fun hc => hc, fun hv => hv⟩
        rw [if_neg hexp]

theorem countCL_cons_cl (h : HttpHeader) (rest : List HttpHeader)
    (hcl : is_content_length h.name = true) :
    countCL (h :: rest) = countCL rest + 1 := by
  simp [countCL, List.filter_cons, hcl]

theorem countCL_cons_not (h : HttpHeader) (rest : List HttpHeader)
    (hcl : is_content_length h.name = false) :
    countCL (h :: rest) = countCL rest := by
  simp [countCL, List.filter_cons, hcl]

theorem hasChunkedTE_cons_cl (h : HttpHeader) (rest : List HttpHeader)
    (hcl : is_content_length h.name = true) :
    hasChunkedTE (h :: rest) = hasChunkedTE rest := by
  simp [hasChunkedTE, List.any_cons, cl_not_te _ hcl]

theorem scanLoop_dup : ∀ (hs : List HttpHeader) (st : ScanState),
    ((st.has_content_length = true ∧ 1 ≤ countCL hs) ∨ 2 ≤ countCL hs) →
    scanHeadersLoop hs st = none := by
  intro hs
  induction hs with
  | nil =>
    intro st hcond
    exfalso
    have : countCL [] = 0 := rfl
    rcases hcond with ⟨_, h1⟩ | h2 <;> omega
  | cons h rest ih =>
    intro st hcond
    by_cases hcl : is_content_length h.name = true
    · by_cases hdup : st.has_content_length = true
      · unfold scanHeadersLoop
        rw [item_cl_dup st h hcl hdup]
        rfl
      · have hdup' : st.has_content_length = false := by simpa using hdup
        have hcount : countCL (h :: rest) = countCL rest + 1 :=
          countCL_cons_cl h rest hcl
        have hrest : 1 ≤ countCL rest := by
          rcases hcond with ⟨hhas, _⟩ | h2
          · exact absurd hhas hdup
          · omega
        unfold scanHeadersLoop
        rw [item_cl_fresh st h hcl hdup']
        by_cases hres : st.result ≠ BodyKind.Chunked
        · rw [if_pos hres]
          cases hp : parse_u64 h.value with
          | none => rfl
          | some n =>
            simp only [Option.bind_eq_bind, Option.some_bind]
            exact ih _ (Or.inl ⟨rfl, hrest⟩)
        · rw [if_neg hres]
          simp only [Option.bind_eq_bind, Option.some_bind]
          exact ih _ (Or.inl ⟨rfl, hrest⟩)
    · have hcl' : is_content_length h.name = false := by simpa using hcl
      obtain ⟨st', heq, hhc, _, _, _⟩ := item_not_cl st h hcl'
      unfold scanHeadersLoop
      rw [heq]
      simp only [Option.bind_eq_bind, Option.some_bind]
      apply ih
      have hcount : countCL (h :: rest) = countCL rest :=
        countCL_cons_not h rest hcl'
      rcases hcond with ⟨hhas, h1⟩ | h2
      · exact Or.inl ⟨by rw [hhc, hhas], by omega⟩
      · exact Or.inr (by omega)

theorem scanLoop_chunked : ∀ (hs : List HttpHeader) (st : ScanState),
    countCL hs + (if st.has_content_length then 1 else 0) ≤ 1 →
    (∀ h ∈ hs, is_content_length h.name = true →
      (parse_u64 h.value).isSome) →
    (st.result = .Chunked → st.has_content_length = true →
      st.close = true) →
    ∃ st', scanHeadersLoop hs st = some st'
      ∧ (st'.result = .Chunked ↔
          (st.result = .Chunked ∨ hasChunkedTE hs = true))
      ∧ (st'.result = .Chunked → st'.has_content_length = true →
          st'.close = true)
      ∧ st'.has_content_length =
          (st.has_content_length || decide (1 ≤ countCL hs)) := by
  intro hs
  induction hs with
  | nil =>
    intro st _ _ hinv
    refine ⟨st, rfl, ?_, hinv, ?_⟩
    · simp [hasChunkedTE]
    · have : countCL [] = 0 := rfl
      simp [this]
  | cons h rest ih =>
    intro st hbound hparse hinv
    by_cases hcl : is_content_length h.name = true
    · have hdup : st.has_content_length = false := by
        by_contra hd
        have hd' : st.has_content_length = true := by simpa using hd
        have := countCL_cons_cl h rest hcl
        rw [hd'] at hbound
        simp at hbound
        omega
      have hcount : countCL (h :: rest) = countCL rest + 1 :=
        countCL_cons_cl h rest hcl
      have hbound' : countCL rest + 1 ≤ 1 := by
        rw [hcount, hdup] at hbound
        simpa using hbound
      have hps : (parse_u64 h.value).isSome :=
        hparse h (List.mem_cons_self h rest) hcl
      unfold scanHeadersLoop
      rw [item_cl_fresh st h hcl hdup]
      by_cases hres : st.result ≠ BodyKind.Chunked
      · rw [if_pos hres]
        cases hp : parse_u64 h.value with
        | none => rw [hp] at hps; simp at hps
        | some n =>
          simp only [Option.bind_eq_bind, Option.some_bind]
          obtain ⟨st', hloop, hiff, hinv', hhc⟩ := ih
            { st with has_content_length := true, result := .Fixed n }
            (by simp; omega)
            (fun x hx hclx => hparse x (List.mem_cons_of_mem h hx) hclx)
            (by intro hr; simp at hr)
          refine ⟨st', hloop, ?_, hinv', ?_⟩
          · rw [hiff, hasChunkedTE_cons_cl h rest hcl]
            constructor
            · rintro (hr | hr)
              · simp at hr
              · exact Or.inr hr
            · rintro (hr | hr)
              · exact absurd hr hres
              · exact Or.inr hr
          · rw [hhc, hdup]
            simp only [Bool.true_or, Bool.false_or]
            have : (1 ≤ countCL (h :: rest)) := by omega
            simp [this]
      · have hres' : st.result = BodyKind.Chunked := by
          by_contra hr
          exact hres hr
        rw [if_neg hres]
        simp only [Option.bind_eq_bind, Option.some_bind]
        obtain ⟨st', hloop, hiff, hinv', hhc⟩ := ih
          { st with has_content_length := true, close := true }
          (by simp; omega)
          (fun x hx hclx => hparse x (List.mem_cons_of_mem h hx) hclx)
          (by intro _ _; rfl)
        refine ⟨st', hloop, ?_, hinv', ?_⟩
        · rw [hasChunkedTE_cons_cl h rest hcl]
          exact hiff
        · rw [hhc]
          have h1 : (1 ≤ countCL (h :: rest)) := by
            rw [countCL_cons_cl h rest hcl]; omega
          rw [hdup]
          simp [h1]
    · have hcl' : is_content_length h.name = false := by simpa using hcl
      obtain ⟨st1, heq, hhc1, hres1, _hcm, hinvp⟩ := item_not_cl st h hcl'
      unfold scanHeadersLoop
      rw [heq]
      simp only [Option.bind_eq_bind, Option.some_bind]
      have hcount : countCL (h :: rest) = countCL rest :=
        countCL_cons_not h rest hcl'
      obtain ⟨st', hloop, hiff, hinv', hhc⟩ := ih st1
        (by rw [hhc1]; omega)
        (fun x hx hclx => hparse x (List.mem_cons_of_mem h hx) hclx)
        (hinvp hinv)
      refine ⟨st', hloop, ?_, hinv', ?_⟩
      · rw [hiff, hres1]
        have hany : hasChunkedTE (h :: rest) =
            ((is_transfer_encoding h.name &&
              is_chunked ((splitByte 44 h.value).getLastD [])) ||
             hasChunkedTE rest) := rfl
        rw [hany]
        by_cases hb : (is_transfer_encoding h.name &&
            is_chunked ((splitByte 44 h.value).getLastD [])) = true
        · rw [if_pos hb, hb]
          simp
        · have hb' : (is_transfer_encoding h.name &&
              is_chunked ((splitByte 44 h.value).getLastD [])) = false := by
            simpa using hb
          rw [if_neg hb, hb']
          simp
      · rw [hhc, hhc1, hcount]

theorem scanLoop_noCL : ∀ (hs : List HttpHeader) (st : ScanState),
    hasChunkedTE hs = false →
    (hs.filter fun x => is_content_length x.name) = [] →
    ∃ st', scanHeadersLoop hs st = some st' ∧ st'.result = st.result := by
  intro hs
  induction hs with
  | nil => intro st _ _; exact ⟨st, rfl, rfl⟩
  | cons h rest ih =>
    intro st hhc hfil
    have hcl : is_content_length h.name = false := by
      by_contra hc
      have hc' : is_content_length h.name = true := by simpa using hc
      simp [List.filter_cons, hc'] at hfil
    have hrest : (rest.filter fun x => is_content_length x.name) = [] := by
      simpa [List.filter_cons, hcl] using hfil
    have hb : (is_transfer_encoding h.name &&
        is_chunked ((splitByte 44 h.value).getLastD [])) = false := by
      have : hasChunkedTE (h :: rest) =
          ((is_transfer_encoding h.name &&
            is_chunked ((splitByte 44 h.value).getLastD [])) ||
           hasChunkedTE rest) := rfl
      rw [this] at hhc
      exact (Bool.or_eq_false_iff.mp hhc).1
    have hhcr : hasChunkedTE rest = false := by
      have : hasChunkedTE (h :: rest) =
          ((is_transfer_encoding h.name &&
            is_chunked ((splitByte 44 h.value).getLastD [])) ||
           hasChunkedTE rest) := rfl
      rw [this] at hhc
      exact (Bool.or_eq_false_iff.mp hhc).2
    obtain ⟨st1, heq, _, hres1, _, _⟩ := item_not_cl st h hcl
    obtain ⟨st', hloop, hres'⟩ := ih st1 hhcr hrest
    refine ⟨st', ?_, ?_⟩
    · unfold scanHeadersLoop
      rw [heq]
      simpa [Option.bind_eq_bind, Option.some_bind] using hloop
    · rw [hres', hres1, if_neg (by rw [hb]; simp)]

theorem scanLoop_oneCL : ∀ (hs : List HttpHeader) (st : ScanState)
    (h0 : HttpHeader) (n : Nat),
    hasChunkedTE hs = false →
    st.result ≠ .Chunked →
    st.has_content_length = false →
    (hs.filter fun x => is_content_length x.name) = [h0] →
    parse_u64 h0.value = some n →
    ∃ st', scanHeadersLoop hs st = some st' ∧ st'.result = .Fixed n := by
  intro hs
  induction hs with
  | nil => intro st h0 n _ _ _ hfil; simp at hfil
  | cons h rest ih =>
    intro st h0 n hhc hres hhas hfil hp
    have hsplit : hasChunkedTE (h :: rest) =
        ((is_transfer_encoding h.name &&
          is_chunked ((splitByte 44 h.value).getLastD [])) ||
         hasChunkedTE rest) := rfl
    rw [hsplit] at hhc
    have hb := (Bool.or_eq_false_iff.mp hhc).1
    have hhcr := (Bool.or_eq_false_iff.mp hhc).2
    by_cases hcl : is_content_length h.name = true
    · have hh0 : h = h0 ∧ (rest.filter fun x => is_content_length x.name) = [] := by
        rw [List.filter_cons, if_pos (by simpa using hcl)] at hfil
        exact ⟨(List.cons.injEq _ _ _ _ ▸ hfil).1,
          (List.cons.injEq _ _ _ _ ▸ hfil).2⟩
      unfold scanHeadersLoop
      rw [item_cl_fresh st h hcl hhas, if_pos hres, hh0.1, hp]
      simp only [Option.bind_eq_bind, Option.some_bind]
      obtain ⟨st', hloop, hres'⟩ := scanLoop_noCL rest _ hhcr hh0.2
      exact ⟨st', hloop, by rw [hres']⟩
    · have hcl' : is_content_length h.name = false := by simpa using hcl
      have hrest : (rest.filter fun x => is_content_length x.name) = [h0] := by
        simpa [List.filter_cons, hcl'] using hfil
      obtain ⟨st1, heq, hhc1, hres1, _, _⟩ := item_not_cl st h hcl'
      have hres1' : st1.result = st.result := by
        rw [hres1, if_neg (by rw [hb]; simp)]
      obtain ⟨st', hloop, hres'⟩ := ih st1 h0 n hhcr
        (by rw [hres1']; exact hres) (by rw [hhc1]; exact hhas) hrest hp
      refine ⟨st', ?_, hres'⟩
      unfold scanHeadersLoop
      rw [heq]
      simpa [Option.bind_eq_bind, Option.some_bind] using hloop

/-- C3 counterexample: with headers `Transfer-Encoding: chunkedX` and
`Content-Length: 5`, the last comma-separated TE token is not `chunked`
under the claim's trimmed case-insensitive equality, so the claim's
`otherwise` branch requires `Fixed 5`; the code's prefix-matching
`is_chunked` accepts `chunkedX`, so `scan_headers` resolves `Chunked`
and forces close. -/
theorem c3_counterexample :
    hasChunkedTEspec
      [⟨strBytes "Transfer-Encoding", strBytes "chunkedX"⟩,
       ⟨strBytes "Content-Length", strBytes "5"⟩] = false
    ∧ countCL
      [⟨strBytes "Transfer-Encoding", strBytes "chunkedX"⟩,
       ⟨strBytes "Content-Length", strBytes "5"⟩] = 1
    ∧ parse_u64 (strBytes "5") = some 5
    ∧ scan_headers .http11
      [⟨strBytes "Transfer-Encoding", strBytes "chunkedX"⟩,
       ⟨strBytes "Content-Length", strBytes "5"⟩] =
      some (.Chunked, false, true) := by
  refine ⟨by decide, by decide, by decide, by decide⟩

/-- C3 amended: with the token condition read through the source matcher
`is_chunked` (leading-whitespace-skipping, case-insensitive prefix
match) instead of trimmed equality: (a) if some `Transfer-Encoding`
header's last comma-separated token matches, there is at most one
`Content-Length` header and every `Content-Length` value parses as a
`u64`, the resolved body kind is `Chunked` regardless of header order,
and if a `Content-Length` header is present the close flag is forced;
(b) if no such `Transfer-Encoding` header is present, a single valid
`Content-Length: n` yields `Fixed n`; (c) two or more `Content-Length`
headers are a fatal parse error (answered with 400 and close by the
`FatalError` arm). -/
theorem c3_amended (version : Version) (headers : List HttpHeader) :
    (hasChunkedTE headers = true →
      countCL headers ≤ 1 →
      (∀ h ∈ headers, is_content_length h.name = true →
        (parse_u64 h.value).isSome) →
      ∃ e c, scan_headers version headers = some (.Chunked, e, c)
        ∧ (1 ≤ countCL headers → c = true))
    ∧ (hasChunkedTE headers = false →
      ∀ h0 n, (headers.filter fun x => is_content_length x.name) = [h0] →
        parse_u64 h0.value = some n →
        ∃ e c, scan_headers version headers = some (.Fixed n, e, c))
    ∧ (2 ≤ countCL headers → scan_headers version headers = none) := by
  refine ⟨?_, ?_, ?_⟩
  · intro hhc hcount hparse
    obtain ⟨st', hloop, hiff, hinv, hhas⟩ := scanLoop_chunked headers
      { has_content_length := false, close := version = Version.http10,
        expect_continue := false, result := .Fixed 0 }
      (by simpa using hcount) hparse (by intro hr; simp at hr)
    refine ⟨st'.expect_continue, st'.close, ?_, ?_⟩
    · unfold scan_headers
      rw [hloop]
      simp only [Option.bind_eq_bind, Option.some_bind]
      have : st'.result = .Chunked := hiff.mpr (Or.inr hhc)
      rw [this]
    · intro h1
      apply hinv (hiff.mpr (Or.inr hhc))
      rw [hhas]
      simp [h1]
  · intro hhc h0 n hfil hp
    obtain ⟨st', hloop, hres⟩ := scanLoop_oneCL headers
      { has_content_length := false, close := version = Version.http10,
        expect_continue := false, result := .Fixed 0 }
      h0 n hhc (by simp) rfl hfil hp
    refine ⟨st'.expect_continue, st'.close, ?_⟩
    unfold scan_headers
    rw [hloop]
    simp only [Option.bind_eq_bind, Option.some_bind]
    rw [hres]
  · intro h2
    unfold scan_headers
    rw [scanLoop_dup headers _ (Or.inr h2)]
    rfl

/-- C3 witness: the amended theorem applied to the concrete header lists
`[Transfer-Encoding: chunked, Content-Length: 5]` (order-reversed
variant included) and `[Content-Length: 5, Content-Length: 5]`. -/
theorem c3_witness :
    (∃ e c, scan_headers .http11
      [⟨strBytes "Content-Length", strBytes "5"⟩,
       ⟨strBytes "Transfer-Encoding", strBytes "chunked"⟩] =
      some (.Chunked, e, c) ∧
      (1 ≤ countCL [⟨strBytes "Content-Length", strBytes "5"⟩,
        ⟨strBytes "Transfer-Encoding", strBytes "chunked"⟩] → c = true))
    ∧ (∃ e c, scan_headers .http11
        [⟨strBytes "Content-Length", strBytes "5"⟩] =
        some (.Fixed 5, e, c))
    ∧ scan_headers .http11
        [⟨strBytes "Content-Length", strBytes "5"⟩,
         ⟨strBytes "Content-Length", strBytes "5"⟩] = none :=
  ⟨(c3_amended .http11 _).1 (by decide) (by decide) (by decide),
   (c3_amended .http11 _).2.1 (by decide)
     ⟨strBytes "Content-Length", strBytes "5"⟩ 5 (by decide) (by decide),
   (c3_amended .http11 _).2.2 (by decide)⟩


/-- C10 witness: the completion-path dispositions evaluated at concrete
states, and a concrete crash of the `BufferFixed` completion arm. -/
theorem c10_witness :
    Parser.complete none .ChunkedBody true = none
    ∧ Parser.complete none .Done true =
        some (if true then NextK.doneResponse else NextK.idleK)
    ∧ reading_body_step
        ⟨fun _ m => (none, m), fun _ m => (some (), m),
         fun m => (some (), m), fun m => m⟩
        ⟨some (), .ChunkedBody, .BufferFixed 0, false⟩ [] [] = .crash :=
  ⟨(c10_complete_asserts_on_incomplete.1 .ChunkedBody true).mpr (by decide),
   c10_complete_asserts_on_incomplete.2.1 true,
   c10_complete_asserts_on_incomplete.2.2 _ _ 0 [] [] ([], .ChunkedBody)
     rfl rfl (by decide) rfl (by decide)⟩

/-! ## Claim C5: payload-too-large rejection -/

/-- C5: whenever the request's resolved body kind is `Fixed n`, the
handler answers `headers_received` with `Buffered limit` where
`limit ≤ n` (the boundary `n = limit` included) and `limit` is below the
stream buffer bound, the header step discards the handler machine and
produces the `FatalError PayloadTooLarge` disposition: the output buffer
receives the default error page (whose bytes contain
`413 Payload Too Large`) appended after whatever the handler wrote, no
`ReadingBody` state is entered (so no body callback is ever invoked),
and the next state flushes and then closes. -/
theorem c5_payload_too_large
    (version : Version) (is_head : Bool) (headers : List HttpHeader)
    (handler : Msg → Msg × Option (RecvMode × Nat))
    (out : Bytes) (maxBufSize limit n dline : Nat)
    (resp' : Msg) (e c : Bool)
    (hscan : scan_headers version headers = some (.Fixed n, e, c))
    (hhand : handler (Response.new out version is_head c) =
      (resp', some (.Buffered limit, dline)))
    (hmax : limit < maxBufSize)
    (hn : limit ≤ n) :
    read_headers_step version is_head headers handler out maxBufSize =
      some (resp'.1 ++ errorPageBytes .PayloadTooLarge, .doneResponse)
    ∧ containsSub (strBytes "413 Payload Too Large")
        (errorPageBytes .PayloadTooLarge) = true
    ∧ bytes_flushed_step .doneResponse = .closedK := by
  refine ⟨?_, by decide, rfl⟩
  unfold read_headers_step parse_headers_core
  rw [hscan]
  dsimp only []
  rw [hhand]
  dsimp only []
  rw [if_neg (by simp; omega)]
  rw [if_pos (by simp; omega)]
  dsimp only []
  rw [emit_error_page_fresh]

/-- C5 witness: the theorem applied to a concrete `Content-Length: 10`
request with a `Buffered 5` handler. -/
theorem c5_witness :
    read_headers_step .http11 false
        [⟨strBytes "Content-Length", strBytes "10"⟩]
        (fun m => (m, some (.Buffered 5, 0))) [] 1000 =
      some ((Response.new [] .http11 false false).1 ++
        errorPageBytes .PayloadTooLarge, .doneResponse)
    ∧ containsSub (strBytes "413 Payload Too Large")
        (errorPageBytes .PayloadTooLarge) = true
    ∧ bytes_flushed_step .doneResponse = .closedK :=
  c5_payload_too_large .http11 false
    [⟨strBytes "Content-Length", strBytes "10"⟩]
    (fun m => (m, some (.Buffered 5, 0))) [] 1000 5 10 0
    (Response.new [] .http11 false false) false false
    (by decide) rfl (by decide) (by decide)

/-! ## Claim C6: 100-continue emission -/

set_option maxRecDepth 16000 in
/-- C6 counterexample: a request with `Expect: 100-continue` and
`Content-Length: 10` whose handler returns `Some` with `Buffered 5` and
does not start the response.  The claim requires the engine to write the
`100 Continue` line; the code rejects the request with the 413 page
before the `Expect` check, and the output contains no continue line. -/
theorem c6_counterexample :
    scan_headers .http11
      [⟨strBytes "Expect", strBytes "100-continue"⟩,
       ⟨strBytes "Content-Length", strBytes "10"⟩] =
      some (.Fixed 10, true, false)
    ∧ read_headers_step .http11 false
        [⟨strBytes "Expect", strBytes "100-continue"⟩,
         ⟨strBytes "Content-Length", strBytes "10"⟩]
        (fun m => (m, some (.Buffered 5, 0))) [] 1000 =
      some (errorPageBytes .PayloadTooLarge, .doneResponse)
    ∧ containsSub (continueLine .http11)
        (errorPageBytes .PayloadTooLarge) = false := by
  refine ⟨by decide, ?_, by decide⟩
  decide

/-- C6 amended: if additionally the request is not rejected by the
payload-too-large check and the `Buffered` limit is below the stream
buffer bound, then the engine enters `ReadingBody` and the output buffer
ends with `HTTP/<version> 100 Continue\r\n\r\n` exactly when the
handler did not start the response during `headers_received`. -/
theorem c6_continue_line
    (version : Version) (is_head : Bool) (headers : List HttpHeader)
    (handler : Msg → Msg × Option (RecvMode × Nat))
    (out : Bytes) (maxBufSize dline : Nat)
    (body : BodyKind) (close : Bool) (resp' : Msg) (mode : RecvMode)
    (hscan : scan_headers version headers = some (body, true, close))
    (hhand : handler (Response.new out version is_head close) =
      (resp', some (mode, dline)))
    (hmax : ∀ x, mode = .Buffered x → x < maxBufSize)
    (hsize : ∀ y x, mode = .Buffered y → body = .Fixed x → x < y)
    (hup : body ≠ .Upgrade) :
    ∃ prog, start_body mode body = some prog
      ∧ read_headers_step version is_head headers handler out maxBufSize =
        some ((if resp'.2.is_started then resp'.1
            else resp'.1 ++ continueLine version),
          .readingBody ⟨some (), resp'.2, prog, close⟩) := by
  unfold read_headers_step parse_headers_core
  rw [hscan]
  dsimp only []
  rw [hhand]
  dsimp only []
  rcases mode with limit | hint
  · have hlim := hmax limit rfl
    rw [if_neg (by simp; omega)]
    rcases body with bn | _ | _
    · have hbn := hsize limit bn rfl rfl
      rw [if_neg (by simp; omega)]
      refine ⟨.BufferFixed bn, rfl, ?_⟩
      by_cases hst : resp'.2.is_started <;> simp [hst, start_body]
    · exact absurd rfl hup
    · rw [if_neg (by simp)]
      refine ⟨.BufferChunked limit 0 0, rfl, ?_⟩
      by_cases hst : resp'.2.is_started <;> simp [hst, start_body]
  · rw [if_neg (by simp)]
    rcases body with bn | _ | _
    · rw [if_neg (by simp)]
      refine ⟨.ProgressiveFixed hint bn, rfl, ?_⟩
      by_cases hst : resp'.2.is_started <;> simp [hst, start_body]
    · exact absurd rfl hup
    · rw [if_neg (by simp)]
      refine ⟨.ProgressiveChunked hint 0 0, rfl, ?_⟩
      by_cases hst : resp'.2.is_started <;> simp [hst, start_body]

/-- C6 witness: the amended theorem at a concrete bodiless request with
`Expect: 100-continue` and a handler that does not start the response. -/
theorem c6_witness :
    ∃ prog, start_body (.Buffered 100) (.Fixed 0) = some prog
      ∧ read_headers_step .http11 false
          [⟨strBytes "Expect", strBytes "100-continue"⟩]
          (fun m => (m, some (.Buffered 100, 0))) [] 1000 =
        some ((if (Response.new [] .http11 false false).2.is_started
            then (Response.new [] .http11 false false).1
            else (Response.new [] .http11 false false).1 ++
              continueLine .http11),
          .readingBody ⟨some (), (Response.new [] .http11 false false).2,
            prog, false⟩) :=
  c6_continue_line .http11 false
    [⟨strBytes "Expect", strBytes "100-continue"⟩]
    (fun m => (m, some (.Buffered 100, 0))) [] 1000 0 (.Fixed 0) false
    (Response.new [] .http11 false false) (.Buffered 100)
    (by decide)
    rfl
    (by intro x hx; cases hx; omega)
    (by intro y x hy hx; cases hy; cases hx; omega)
    (by decide)


/-! ## Claim C1: keep-alive soundness -/

/-- A `NormError` outcome of the header phase arises only for a request
whose scanned close flag is false and whose body kind is `Fixed 0`. -/
theorem parse_headers_core_normError
    (version : Version) (is_head : Bool) (headers : List HttpHeader)
    (handler : Msg → Msg × Option (RecvMode × Nat))
    (out : Bytes) (maxBufSize : Nat) (buf : Bytes) (ih : Bool)
    (v : Version) (cd : ErrorCode) :
    parse_headers_core version is_head headers handler out maxBufSize =
      some (buf, .NormError ih v cd) →
    ∃ e, scan_headers version headers = some (.Fixed 0, e, false) := by
  intro h
  unfold parse_headers_core at h
  cases hscan : scan_headers version headers with
  | none => rw [hscan] at h; simp at h
  | some triple =>
    rcases triple with ⟨body, e, close⟩
    rw [hscan] at h
    dsimp only [] at h
    cases hh : (handler (Response.new out version is_head close)).2 with
    | some md =>
      rw [hh] at h
      rcases md with ⟨mode, dl⟩
      dsimp only [] at h
      split at h
      · exact absurd h (by simp)
      · split at h
        · simp at h
        · split at h
          · simp at h
          · simp at h
    | none =>
      rw [hh] at h
      dsimp only [] at h
      split at h
      · simp at h
      · split at h
        · simp at h
        · rename_i hstart hclose
          simp only [Option.some.injEq, Prod.mk.injEq] at h
          refine ⟨e, ?_⟩
          have h1 : close = false := by
            by_contra hc
            have : close = true := by simpa using hc
            exact hclose (by simp [this])
          have h2 : body = BodyKind.Fixed 0 := by
            by_contra hb
            exact hclose (by simp [hb])
          rw [h1, h2]

/-- Any `ReadingBody` event that transitions to `Idle` ends with a
`Done` builder, a false close flag, and the framed body finished. -/
theorem reading_body_idle (funs : ServerFuns) (rb : ReadBody)
    (inp out inp2 out2 : Bytes) (resp : MessageState) :
    reading_body_step funs rb inp out = .step inp2 out2 resp .idleK →
    resp = .Done ∧ rb.connection_close = false ∧
    framingFinished rb.progress inp = true := by
  obtain ⟨m, rsp, prog, cc⟩ := rb
  intro h
  cases prog with
  | BufferFixed x =>
    simp only [reading_body_step] at h
    split at h
    · simp at h
    · rename_i hlen
      split at h
      · simp at h
      · rename_i k heq
        simp only [StepRes.step.injEq] at h
        obtain ⟨h1, h2, hresp, hk⟩ := h
        rw [hk] at heq
        obtain ⟨hm, hst, hcc⟩ := complete_idle _ _ _ heq
        refine ⟨by rw [← hresp]; exact hst, hcc, ?_⟩
        simp only [framingFinished, decide_eq_true_eq]
        omega
  | BufferChunked limit off left =>
    cases left with
    | zero =>
      simp only [reading_body_step] at h
      split at h
      · rename_i hfind
        split at h
        · split at h
          · simp at h
          · rename_i pe heq2
            have := error_next _ _ _ _ _ heq2
            simp only [StepRes.step.injEq] at h
            exact absurd (h.2.2.2 ▸ this) (by simp)
        · simp at h
      · rename_i a hfind
        split at h
        · rename_i hparse
          split at h
          · simp at h
          · rename_i k heq
            simp only [StepRes.step.injEq] at h
            obtain ⟨h1, h2, hresp, hk⟩ := h
            rw [hk] at heq
            obtain ⟨hm, hst, hcc⟩ := complete_idle _ _ _ heq
            refine ⟨by rw [← hresp]; exact hst, hcc, ?_⟩
            simp only [framingFinished, hfind, hparse]
            rfl
        · rename_i chunkLen hparse
          split at h
          · split at h
            · simp at h
            · rename_i pe heq2
              have := error_next _ _ _ _ _ heq2
              simp only [StepRes.step.injEq] at h
              exact absurd (h.2.2.2 ▸ this) (by simp)
          · simp only [StepRes.step.injEq] at h
            exact absurd h.2.2.2 (by simp)
        · split at h
          · simp at h
          · rename_i pe heq2
            have := error_next _ _ _ _ _ heq2
            simp only [StepRes.step.injEq] at h
            exact absurd (h.2.2.2 ▸ this) (by simp)
    | succ y =>
      simp only [reading_body_step] at h
      split at h
      · simp at h
      · simp only [StepRes.step.injEq] at h
        exact absurd h.2.2.2 (by simp)
  | ProgressiveFixed hint left =>
    simp only [reading_body_step] at h
    split at h
    · simp at h
    · rename_i hlen
      split at h
      · rename_i hleft
        split at h
        · simp at h
        · rename_i k heq
          simp only [StepRes.step.injEq] at h
          obtain ⟨h1, h2, hresp, hk⟩ := h
          rw [hk] at heq
          obtain ⟨hm, hst, hcc⟩ := complete_idle _ _ _ heq
          refine ⟨by rw [← hresp]; exact hst, hcc, ?_⟩
          simp only [framingFinished, decide_eq_true_eq]
          rcases Nat.le_total inp.length left with hle | hle
          · rw [Nat.min_eq_left hle] at hleft
            omega
          · omega
      · simp only [StepRes.step.injEq] at h
        exact absurd h.2.2.2 (by simp)
  | ProgressiveChunked hint off left =>
    cases left with
    | zero =>
      simp only [reading_body_step] at h
      split at h
      · split at h
        · split at h
          · simp at h
          · rename_i pe heq2
            have := error_next _ _ _ _ _ heq2
            simp only [StepRes.step.injEq] at h
            exact absurd (h.2.2.2 ▸ this) (by simp)
        · simp at h
      · rename_i a hfind
        split at h
        · rename_i hparse
          split at h
          · simp at h
          · rename_i k heq
            simp only [StepRes.step.injEq] at h
            obtain ⟨h1, h2, hresp, hk⟩ := h
            rw [hk] at heq
            obtain ⟨hm, hst, hcc⟩ := complete_idle _ _ _ heq
            refine ⟨by rw [← hresp]; exact hst, hcc, ?_⟩
            simp only [framingFinished, hfind, hparse]
            rfl
        · simp only [StepRes.step.injEq] at h
          exact absurd h.2.2.2 (by simp)
        · split at h
          · simp at h
          · rename_i pe heq2
            have := error_next _ _ _ _ _ heq2
            simp only [StepRes.step.injEq] at h
            exact absurd (h.2.2.2 ▸ this) (by simp)
    | succ y =>
      simp only [reading_body_step] at h
      repeat' split at h
      all_goals simp at h

/-- C1: keep-alive soundness.  (a) A `ReadingBody` event transitions to
the keep-alive `Idle` state only if the response builder ended the event
in the `Done` state, the connection-close flag of the request is false,
and the framed request body ends at this event (`framingFinished`); (b,
c) the `Processing` wakeup and timeout events transition to `Idle` only
with a `Done` builder and a false close flag; (d) the header-phase step
transitions to `Idle` only for a request whose scanned close flag is
false and whose body is `Fixed 0` (already fully consumed with the
header block); (e) every other disposition of the completion path
`Parser::complete` with a consumed machine is flush-then-close or the
failed assertion. -/
theorem c1_keepalive_soundness :
    (∀ (funs : ServerFuns) (rb : ReadBody) (inp out inp2 out2 : Bytes)
      (resp : MessageState),
      reading_body_step funs rb inp out = .step inp2 out2 resp .idleK →
      resp = .Done ∧ rb.connection_close = false ∧
      framingFinished rb.progress inp = true)
    ∧ (∀ (wf : Msg → Option Unit × Msg) (rsp : MessageState)
      (close : Bool) (out buf : Bytes) (rs : MessageState),
      processing_wakeup wf rsp close out = some (buf, rs, .idleK) →
      rs = .Done ∧ close = false)
    ∧ (∀ (tf : Msg → Option Unit × Msg) (rsp : MessageState)
      (close : Bool) (out buf : Bytes) (rs : MessageState),
      processing_timeout tf rsp close out = some (buf, rs, .idleK) →
      rs = .Done ∧ close = false)
    ∧ (∀ (version : Version) (is_head : Bool) (headers : List HttpHeader)
      (handler : Msg → Msg × Option (RecvMode × Nat)) (out : Bytes)
      (maxBufSize : Nat) (buf : Bytes),
      read_headers_step version is_head headers handler out maxBufSize =
        some (buf, .idleK) →
      ∃ e, scan_headers version headers = some (.Fixed 0, e, false))
    ∧ (∀ (st : MessageState) (c : Bool),
      Parser.complete none st c ≠ some .idleK →
      Parser.complete none st c = some .doneResponse ∨
        Parser.complete none st c = none) := by
  refine ⟨reading_body_idle, ?_, ?_, ?_, ?_⟩
  · intro wf rsp close out buf rs h
    simp only [processing_wakeup] at h
    split at h
    · simp at h
    · rename_i k heq
      simp only [Option.some.injEq, Prod.mk.injEq] at h
      obtain ⟨_, hrs, hk⟩ := h
      rw [hk] at heq
      obtain ⟨_, hst, hcc⟩ := complete_idle _ _ _ heq
      exact ⟨by rw [← hrs]; exact hst, hcc⟩
  · intro tf rsp close out buf rs h
    simp only [processing_timeout] at h
    split at h
    · simp [Parser.complete] at h
    · have := error_next _ _ _ _ _ h
      exact absurd this (by simp)
  · intro version is_head headers handler out maxBufSize buf h
    simp only [read_headers_step] at h
    split at h
    · simp at h
    · rename_i rb heq
      simp at h
    · rename_i ih v code heq
      split at h
      · simp at h
      · rename_i r hemit
        split at h
        · simp only [Option.some.injEq, Prod.mk.injEq] at h
          exact parse_headers_core_normError version is_head headers
            handler out maxBufSize _ ih v code heq
        · simp at h
    · rename_i code heq
      split at h
      · simp at h
      · simp at h
    · simp at h
  · intro st c h
    unfold Parser.complete at h ⊢
    by_cases hc : st.is_complete
    · rw [if_pos hc] at h ⊢
      cases c
      · exact absurd rfl h
      · exact Or.inl rfl
    · rw [if_neg hc] at h ⊢
      exact Or.inr rfl

/-- C1 witness: a concrete buffered fixed-size completion whose handler
finishes the response and returns `None` on a no-close connection: the
step enters `Idle`, and the theorem's conclusions hold there. -/
theorem c1_witness :
    (MessageState.Done = MessageState.Done
      ∧ (⟨some (), .ResponseStart .http11 .Normal false, .BufferFixed 0,
          false⟩ : ReadBody).connection_close = false
      ∧ framingFinished (⟨some (), .ResponseStart .http11 .Normal false,
          .BufferFixed 0, false⟩ : ReadBody).progress [] = true) :=
  c1_keepalive_soundness.1
    ⟨fun _ _ => (none, ([], .Done)), fun _ m => (some (), m),
     fun m => (some (), m), fun m => m⟩
    ⟨some (), .ResponseStart .http11 .Normal false, .BufferFixed 0, false⟩
    [] [] [] [] .Done rfl

end RotorHttp
